import Mathlib

/-
Verification development for the order-fulfillment core of the
Telegram-shop-Physical repository.

The embedding models the reservation engine
(bot/database/methods/inventory.py: reserve_inventory,
release_reservation, deduct_inventory, add_inventory,
cleanup_expired_reservations), the payment-address pool
(bot/payments/bitcoin.py) and the admin order transitions
(bot_cli.py: confirm_order_with_delivery_time, mark_order_delivered).

Python integers are modelled as Int, timestamps as Int seconds since
epoch, money amounts as Rat, database tables as lists of records.
Transaction semantics: every operation returns the state as seen by its
session, and a rollback returns the state the session started with.
The session actions (commit / rollback / close) that each operation
performs are recorded explicitly so that claims about transaction
boundaries can be stated.  Python logging calls (logger.<level>) made by
an operation are recorded as (level, message) pairs; the four engine
operations contain no logging call in the source, so those lists are
built empty on every path.
-/

namespace Shop

/-- Goods row: name is the business key, with on-hand and held counts
(models the Goods ORM rows mutated by inventory.py). -/
structure Goods where
  name : String
  stock_quantity : Int
  reserved_quantity : Int
deriving DecidableEq

/-- One immutable order line item (OrderItem row); also used for the
item dicts passed to reserve_inventory, which carry the same two
fields. -/
structure OrderItem where
  item_name : String
  quantity : Int
deriving DecidableEq

/-- Order row with the fields read or written by the embedded code. -/
structure Order where
  id : Nat
  buyer_id : Nat
  payment_method : String
  order_status : String
  reserved_until : Option Int
  delivery_time : Option Int
  completed_at : Option Int
  bonus_applied : Rat
  total_price : Rat
  order_code : String
  items : List OrderItem
deriving DecidableEq

/-- Audit row written by log_inventory_change. -/
structure InventoryLog where
  item_name : String
  change_type : String
  quantity_change : Int
  order_id : Option Nat
  admin_id : Option Int
  comment : String
deriving DecidableEq

/-- CustomerInfo row (bonus balance, spendings). -/
structure CustomerInfo where
  telegram_id : Nat
  bonus_balance : Rat
  total_spendings : Rat
  completed_orders_count : Int
deriving DecidableEq

/-- User row (only the fields bot_cli reads). -/
structure User where
  telegram_id : Nat
  referral_id : Option Nat
deriving DecidableEq

/-- ReferralEarnings row appended on delivery. -/
structure ReferralEarning where
  referrer_id : Nat
  referral_id : Nat
  amount : Rat
  original_amount : Rat
deriving DecidableEq

/-- Database state: the tables touched by the embedded operations.
reference_bonus_percent models the committed value returned by
get_reference_bonus_percent (a BotSettings row holding a decimal). -/
structure DBState where
  goods : List Goods
  orders : List Order
  inventory_logs : List InventoryLog
  customers : List CustomerInfo
  users : List User
  referral_earnings : List ReferralEarning
  settings : List (String × String)
  reference_bonus_percent : Rat
deriving DecidableEq

/-- Action performed on the SQLAlchemy session used by an operation. -/
inductive SessionEvent where
  | commit
  | rollback
  | close
deriving DecidableEq

/-- Result of one engine operation: the (bool, message) pair the Python
function returns, the state as left in the session it used, the session
actions it performed, and the logging calls it made. -/
structure OpResult where
  ok : Bool
  msg : String
  state : DBState
  events : List SessionEvent
  logger_calls : List (String × String)
deriving DecidableEq

/-- session.query(Goods).filter_by(name=..).first() -/
def findGoods (gs : List Goods) (nm : String) : Option Goods :=
  gs.find? (fun g => g.name == nm)

/-- In-place update of the goods row(s) matching a name (the ORM mutates
the row object held by the session). -/
def updateGoods (nm : String) (f : Goods → Goods) (gs : List Goods) : List Goods :=
  gs.map (fun g => if g.name == nm then f g else g)

/-- session.query(Order).filter_by(id=..).first() -/
def findOrder (s : DBState) (oid : Nat) : Option Order :=
  s.orders.find? (fun o => o.id == oid)

/-- session.query(Order).filter_by(order_code=..).first() -/
def findOrderByCode (s : DBState) (code : String) : Option Order :=
  s.orders.find? (fun o => o.order_code == code)

/-- In-place update of the order row(s) with a given id. -/
def updateOrder (s : DBState) (oid : Nat) (f : Order → Order) : DBState :=
  { s with orders := s.orders.map (fun o => if o.id == oid then f o else o) }

/-- In-place update of the order row(s) with a given code. -/
def updateOrderByCode (s : DBState) (code : String) (f : Order → Order) : DBState :=
  { s with orders := s.orders.map (fun o => if o.order_code == code then f o else o) }

/-- get_bot_setting(key, default, int): reads the committed BotSettings
row; empty or unparsable values fall back to the default. -/
def get_bot_setting_int (s : DBState) (key : String) (dflt : Int) : Int :=
  match s.settings.find? (fun kv => kv.1 == key) with
  | some kv =>
      if kv.2 == "" then dflt
      else match kv.2.toInt? with
        | some n => n
        | none => dflt
  | none => dflt

/-- Python: order.order_code or order_id (empty code is falsy). -/
def orderRef (order_code : String) (oid : Nat) : String :=
  if order_code == "" then toString oid else order_code

/-- Failure message of reserve_inventory for insufficient stock. -/
def insufficientMsg (nm : String) (avail req : Int) : String :=
  "Insufficient stock for \x27" ++ nm ++ "\x27. Available: " ++ toString avail
    ++ ", Requested: " ++ toString req

/-- Failure message for a missing goods row. -/
def itemNotFoundMsg (nm : String) : String :=
  "Item \x27" ++ nm ++ "\x27 not found"

/-- Failure message of deduct_inventory when stock would go negative. -/
def stockNegativeMsg (nm : String) : String :=
  "Stock would go negative for \x27" ++ nm ++ "\x27"

/-- Audit entry written by the reserve loop for one item. -/
def reserveLogEntry (nm : String) (qty : Int) (oid : Nat) (oref pm : String) : InventoryLog :=
  { item_name := nm, change_type := "reserve", quantity_change := qty,
    order_id := some oid, admin_id := none,
    comment := "Reserved for order " ++ oref ++ " (" ++ pm ++ " payment)" }

/-- The per-item loop of reserve_inventory: lock the goods row, check
availability, reserve, and write one audit entry per item; the first
missing item or shortfall aborts with the exact Python error message. -/
def reserveLoop (oid : Nat) (oref pm : String) :
    List OrderItem → List Goods → Except String (List Goods × List InventoryLog)
  | [], gs => .ok (gs, [])
  | it :: rest, gs =>
    match findGoods gs it.item_name with
    | none => .error (itemNotFoundMsg it.item_name)
    | some g =>
      let available := g.stock_quantity - g.reserved_quantity
      if available < it.quantity then
        .error (insufficientMsg it.item_name available it.quantity)
      else
        let gs' := updateGoods it.item_name
          (fun g0 => { g0 with reserved_quantity := g0.reserved_quantity + it.quantity }) gs
        match reserveLoop oid oref pm rest gs' with
        | .error m => .error m
        | .ok (gsFin, logs) =>
            .ok (gsFin, reserveLogEntry it.item_name it.quantity oid oref pm :: logs)

/-- reserve_inventory(order_id, items, payment_method, session).
externalSession is true when the caller supplied a session; now is the
value of datetime.now(timezone.utc) in epoch seconds.  Note that the
deadline is now + cash_order_timeout_hours for every payment method:
the payment_method argument only flows into the audit comment. -/
def reserve_inventory (oid : Nat) (items : List OrderItem) (payment_method : Option String)
    (externalSession : Bool) (now : Int) (s : DBState) : OpResult :=
  match findOrder s oid with
  | none =>
      { ok := false, msg := "Order not found", state := s,
        events := if externalSession then [] else [.close], logger_calls := [] }
  | some order =>
    let pm := payment_method.getD order.payment_method
    let oref := orderRef order.order_code oid
    match reserveLoop oid oref pm items s.goods with
    | .error m =>
        { ok := false, msg := m, state := s,
          events := if externalSession then [.rollback] else [.rollback, .close],
          logger_calls := [] }
    | .ok (gs, logs) =>
        let timeout_hours := get_bot_setting_int s "cash_order_timeout_hours" 24
        let s1 := { s with goods := gs, inventory_logs := s.inventory_logs ++ logs }
        let s2 := updateOrder s1 oid (fun o =>
          { o with reserved_until := some (now + timeout_hours * 3600),
                   order_status := "reserved" })
        { ok := true, msg := "Inventory reserved successfully", state := s2,
          events := if externalSession then [] else [.commit, .close],
          logger_calls := [] }

/-- Audit entry written by the release loop for one item. -/
def releaseLogEntry (nm : String) (qty : Int) (oid : Nat) (reason oref : String) : InventoryLog :=
  { item_name := nm, change_type := "release", quantity_change := -qty,
    order_id := some oid, admin_id := none,
    comment := reason ++ " - " ++ oref }

/-- The per-item loop of release_reservation: decrement the reservation,
clamp at zero, write one audit entry; a missing goods row is silently
skipped. -/
def releaseLoop (oid : Nat) (reason oref : String) :
    List OrderItem → List Goods → List Goods × List InventoryLog
  | [], gs => (gs, [])
  | it :: rest, gs =>
    match findGoods gs it.item_name with
    | none => releaseLoop oid reason oref rest gs
    | some _ =>
        let gs' := updateGoods it.item_name
          (fun g0 =>
            let r := g0.reserved_quantity - it.quantity
            { g0 with reserved_quantity := if r < 0 then 0 else r }) gs
        let (gsFin, logs) := releaseLoop oid reason oref rest gs'
        (gsFin, releaseLogEntry it.item_name it.quantity oid reason oref :: logs)

/-- release_reservation(order_id, reason, session): releases every line
item of the order (with the floor at zero) and clears the deadline. -/
def release_reservation (oid : Nat) (reason : String)
    (externalSession : Bool) (s : DBState) : OpResult :=
  match findOrder s oid with
  | none =>
      { ok := false, msg := "Order not found", state := s,
        events := if externalSession then [] else [.close], logger_calls := [] }
  | some order =>
    let oref := orderRef order.order_code oid
    let (gs, logs) := releaseLoop oid reason oref order.items s.goods
    let s1 := { s with goods := gs, inventory_logs := s.inventory_logs ++ logs }
    let s2 := updateOrder s1 oid (fun o => { o with reserved_until := none })
    { ok := true, msg := "Reservation released successfully", state := s2,
      events := if externalSession then [] else [.commit, .close],
      logger_calls := [] }

/-- Audit entry written by the deduct loop for one item. -/
def deductLogEntry (nm : String) (qty : Int) (oid : Nat) (adm : Option Int)
    (oref : String) : InventoryLog :=
  { item_name := nm, change_type := "deduct", quantity_change := -qty,
    order_id := some oid, admin_id := adm,
    comment := "Order confirmed: " ++ oref }

/-- The per-item loop of deduct_inventory: subtract the quantity from
both counts; abort if stock would go negative, clamp the reservation at
zero otherwise. -/
def deductLoop (oid : Nat) (adm : Option Int) (oref : String) :
    List OrderItem → List Goods → Except String (List Goods × List InventoryLog)
  | [], gs => .ok (gs, [])
  | it :: rest, gs =>
    match findGoods gs it.item_name with
    | none => .error (itemNotFoundMsg it.item_name)
    | some g =>
      if g.stock_quantity - it.quantity < 0 then
        .error (stockNegativeMsg it.item_name)
      else
        let gs' := updateGoods it.item_name
          (fun g0 =>
            let r := g0.reserved_quantity - it.quantity
            { g0 with stock_quantity := g0.stock_quantity - it.quantity,
                      reserved_quantity := if r < 0 then 0 else r }) gs
        match deductLoop oid adm oref rest gs' with
        | .error m => .error m
        | .ok (gsFin, logs) =>
            .ok (gsFin, deductLogEntry it.item_name it.quantity oid adm oref :: logs)

/-- deduct_inventory(order_id, admin_id, session): the permanent stock
reduction; a stock count that would go negative rolls the whole
transaction back, a reservation count that would go negative is clamped.
No logging call is made on any path (the source never invokes logger
inside this function). -/
def deduct_inventory (oid : Nat) (admin_id : Option Int)
    (externalSession : Bool) (s : DBState) : OpResult :=
  match findOrder s oid with
  | none =>
      { ok := false, msg := "Order not found", state := s,
        events := if externalSession then [] else [.close], logger_calls := [] }
  | some order =>
    let oref := orderRef order.order_code oid
    match deductLoop oid admin_id oref order.items s.goods with
    | .error m =>
        { ok := false, msg := m, state := s,
          events := if externalSession then [.rollback] else [.rollback, .close],
          logger_calls := [] }
    | .ok (gs, logs) =>
        let s1 := { s with goods := gs, inventory_logs := s.inventory_logs ++ logs }
        let s2 := updateOrder s1 oid (fun o => { o with reserved_until := none })
        { ok := true, msg := "Inventory deducted successfully", state := s2,
          events := if externalSession then [] else [.commit, .close],
          logger_calls := [] }

/-- add_inventory(item_name, quantity, admin_id, comment, session):
restocking; fails only when the item does not exist. -/
def add_inventory (nm : String) (qty : Int) (admin_id : Option Int)
    (comment : Option String) (externalSession : Bool) (s : DBState) : OpResult :=
  match findGoods s.goods nm with
  | none =>
      { ok := false, msg := itemNotFoundMsg nm, state := s,
        events := if externalSession then [] else [.close], logger_calls := [] }
  | some _ =>
      let gs := updateGoods nm
        (fun g0 => { g0 with stock_quantity := g0.stock_quantity + qty }) s.goods
      let cmt := match comment with
        | some c => if c == "" then "Stock added" else c
        | none => "Stock added"
      let entry : InventoryLog :=
        { item_name := nm, change_type := "add", quantity_change := qty,
          order_id := none, admin_id := admin_id, comment := cmt }
      { ok := true, msg := "Added " ++ toString qty ++ " units to " ++ nm,
        state := { s with goods := gs, inventory_logs := s.inventory_logs ++ [entry] },
        events := if externalSession then [] else [.commit, .close],
        logger_calls := [] }

/-- BitcoinAddress row of the payment-address pool. -/
structure BitcoinAddress where
  address : String
  is_used : Bool
  used_by : Option Nat
  used_at : Option Int
  order_id : Option Nat
deriving DecidableEq

/-- Pool state: the BitcoinAddress table plus the backing
btc_addresses.txt file as a list of raw lines. -/
structure BtcState where
  addresses : List BitcoinAddress
  file : List String
deriving DecidableEq

/-- remove_bitcoin_address_from_file: rewrite keeping comments and blank
lines and dropping exactly the lines whose stripped content equals the
address. -/
def remove_bitcoin_address_from_file (address : String) (file : List String) : List String :=
  file.filter (fun line =>
    let stripped := line.trim
    stripped == "" || stripped.startsWith "#" || stripped != address)

/-- mark_bitcoin_address_used(address, user_id, ..., order_id): looks the
row up by address only; when found it sets is_used, assignee, timestamp
and order (whether or not the row was already used) and removes the
address from the backing file; it returns false only when no row with
that address exists. -/
def mark_bitcoin_address_used (address : String) (user_id : Nat) (oid : Nat)
    (now : Int) (st : BtcState) : Bool × BtcState :=
  match st.addresses.find? (fun a => a.address == address) with
  | none => (false, st)
  | some _ =>
      let addrs := st.addresses.map (fun a =>
        if a.address == address then
          { a with is_used := true, used_by := some user_id,
                   used_at := some now, order_id := some oid }
        else a)
      (true, { addresses := addrs,
               file := remove_bitcoin_address_from_file address st.file })

/-- Event in the trace of one expiry-sweep cycle: an order whose cleanup
body ran, or a commit making a state durable. -/
inductive SweepEvent where
  | processed (oid : Nat)
  | commit (snapshot : DBState)
deriving DecidableEq

/-- Result of one cleanup_expired_reservations cycle. -/
structure SweepResult where
  count : Nat
  order_codes : List String
  state : DBState
  trace : List SweepEvent
deriving DecidableEq

/-- The SQL filter of the sweep: status reserved and a non-null deadline
strictly before now (a NULL deadline never satisfies the comparison). -/
def isExpiredOrder (now : Int) (o : Order) : Bool :=
  o.order_status == "reserved" &&
    (match o.reserved_until with
     | some t => decide (t < now)
     | none => false)

/-- Cleanup body for one expired order: release the reservation in the
shared session, mark the order expired, and refund an applied bonus to
the buyer when a CustomerInfo row exists (notification and CSV sync are
external best-effort collaborators). -/
def sweepOne (w : DBState) (o : Order) : DBState × Bool :=
  let r := release_reservation o.id "Reservation timeout expired" true w
  if r.ok then
    let w1 := updateOrder r.state o.id (fun od => { od with order_status := "expired" })
    if 0 < o.bonus_applied then
      match w1.customers.find? (fun c => c.telegram_id == o.buyer_id) with
      | some _ =>
          ({ w1 with customers := w1.customers.map (fun c =>
              if c.telegram_id == o.buyer_id then
                { c with bonus_balance := c.bonus_balance + o.bonus_applied }
              else c) }, true)
      | none => (w1, true)
    else (w1, true)
  else (w, false)

/-- The for-loop of cleanup_expired_reservations over the selected
expired orders, all in the one shared session; returns the session
state, the count, the order codes and the processed-events trace. -/
def sweepGo : List Order → DBState → DBState × Nat × List String × List SweepEvent
  | [], w => (w, 0, [], [])
  | o :: rest, w =>
    let p := sweepOne w o
    let q := sweepGo rest p.1
    if p.2 then
      (q.1, q.2.1 + 1, orderRef o.order_code o.id :: q.2.2.1,
       SweepEvent.processed o.id :: q.2.2.2)
    else
      (q.1, q.2.1, q.2.2.1, SweepEvent.processed o.id :: q.2.2.2)

/-- cleanup_expired_reservations: one sweep cycle.  All expired orders
(status reserved, non-null deadline before now) are selected once, the
cleanup of every one of them runs in a single shared session, and a
single commit at the very end of the cycle makes the whole batch durable
(there is no per-order commit in the source). -/
def cleanup_expired_reservations (now : Int) (s : DBState) : SweepResult :=
  let expired := s.orders.filter (isExpiredOrder now)
  let q := sweepGo expired s
  { count := q.2.1, order_codes := q.2.2.1, state := q.1,
    trace := q.2.2.2 ++ [SweepEvent.commit q.1] }

/-- Whether a sweep event is a commit. -/
def isCommitEvent : SweepEvent → Bool
  | SweepEvent.commit _ => true
  | SweepEvent.processed _ => false

/-- Durable state visible after a crash: the snapshot of the last commit
event in the executed prefix of the trace, or the initial state when no
commit has happened yet. -/
def durableState (initial : DBState) (executed : List SweepEvent) : DBState :=
  executed.foldl (fun acc e =>
    match e with
    | SweepEvent.commit st => st
    | SweepEvent.processed _ => acc) initial

/-- update_customer_spendings(telegram_id, username, amount): own
session, creates the CustomerInfo row if missing, adds the amount to
total_spendings and bumps completed_orders_count, commits. -/
def update_customer_spendings (tid : Nat) (amount : Rat) (s : DBState) : DBState :=
  match s.customers.find? (fun c => c.telegram_id == tid) with
  | some _ =>
      { s with customers := s.customers.map (fun c =>
          if c.telegram_id == tid then
            { c with total_spendings := c.total_spendings + amount,
                     completed_orders_count := c.completed_orders_count + 1 }
          else c) }
  | none =>
      { s with customers := s.customers ++
          [{ telegram_id := tid, bonus_balance := 0, total_spendings := amount,
             completed_orders_count := 1 }] }

/-- confirm_order_with_delivery_time(order_code, delivery_time): admin
confirmation.  The only eligibility guards are: the order exists, is not
already delivered, and is not cancelled/canceled/expired; any other
status (including pending with a null deadline) is overwritten to
confirmed.  The reservation deadline, when present and about to expire
within an hour, is pushed to one hour past the delivery time. -/
def confirm_order_with_delivery_time (code : String) (delivery_time : Int)
    (now : Int) (s : DBState) : DBState :=
  match findOrderByCode s code with
  | none => s
  | some order =>
    if order.order_status == "delivered" then s
    else if order.order_status == "cancelled" || order.order_status == "canceled"
        || order.order_status == "expired" then s
    else
      updateOrderByCode s code (fun o =>
        let o1 := { o with order_status := "confirmed", delivery_time := some delivery_time }
        match o1.reserved_until with
        | some t =>
            if t < now + 3600 then
              { o1 with reserved_until := some (delivery_time + 3600) }
            else o1
        | none => o1)

/-- The referral-bonus section of mark_order_delivered: when the buyer
has a referrer and the configured percent is positive, append a
ReferralEarnings row and credit the referrer's CustomerInfo bonus
balance when that row exists. -/
def applyReferralBonus (buyer_id : Nat) (total_price : Rat) (s : DBState) : DBState :=
  match s.users.find? (fun u => u.telegram_id == buyer_id) with
  | none => s
  | some buyer =>
    match buyer.referral_id with
    | none => s
    | some rid =>
      if 0 < s.reference_bonus_percent then
        match s.users.find? (fun u => u.telegram_id == rid) with
        | none => s
        | some _ =>
          let amount := total_price * s.reference_bonus_percent / 100
          let entry : ReferralEarning :=
            { referrer_id := rid, referral_id := buyer_id,
              amount := amount, original_amount := total_price }
          let s1 : DBState := { s with referral_earnings := s.referral_earnings ++ [entry] }
          match s.customers.find? (fun c => c.telegram_id == rid) with
          | some _ =>
              { s1 with customers := s1.customers.map (fun c =>
                  if c.telegram_id == rid then
                    { c with bonus_balance := c.bonus_balance + amount }
                  else c) }
          | none => s1
      else s

/-- mark_order_delivered(order_code): guards (exists, not delivered, not
cancelled/canceled/expired — a pending order with a null deadline passes
them), then deduct_inventory in the same session; on deduction failure
the session was rolled back and nothing is committed; on success the
order becomes delivered, spendings are updated and the referral bonus is
processed, then one commit. -/
def mark_order_delivered (code : String) (now : Int) (s : DBState) : DBState :=
  match findOrderByCode s code with
  | none => s
  | some order =>
    if order.order_status == "delivered" then s
    else if order.order_status == "cancelled" || order.order_status == "canceled"
        || order.order_status == "expired" then s
    else
      let r := deduct_inventory order.id (some 0) true s
      if r.ok then
        let s1 := updateOrderByCode r.state code (fun o =>
          { o with order_status := "delivered", completed_at := some now })
        let s2 := update_customer_spendings order.buyer_id order.total_price s1
        applyReferralBonus order.buyer_id order.total_price s2
      else s

/-- Intended data-model invariant of the stock ledger: no count is ever
negative. -/
def GoodsNonneg (gs : List Goods) : Prop :=
  ∀ g ∈ gs, 0 ≤ g.reserved_quantity ∧ 0 ≤ g.stock_quantity

/-- Total quantity requested for one item name across a request list. -/
def qtyTotal (items : List OrderItem) (nm : String) : Int :=
  items.foldr (fun it acc => if it.item_name == nm then it.quantity + acc else acc) 0

/- ------------------------------------------------------------------
   Concrete sample states used to evaluate the operations
   ------------------------------------------------------------------ -/

/-- One catalog item with plenty of stock and no holds. -/
def sampleGoods : Goods :=
  { name := "Widget", stock_quantity := 10, reserved_quantity := 0 }

/-- A freshly created (pending, never reserved) bitcoin order for three
Widgets. -/
def sampleOrder : Order :=
  { id := 1, buyer_id := 7, payment_method := "bitcoin",
    order_status := "pending", reserved_until := none, delivery_time := none,
    completed_at := none, bonus_applied := 0, total_price := 100,
    order_code := "ABC123",
    items := [{ item_name := "Widget", quantity := 3 }] }

/-- Base database state: the sample order and item, empty settings (so
the cash timeout takes its default of 24 hours). -/
def sampleState : DBState :=
  { goods := [sampleGoods], orders := [sampleOrder], inventory_logs := [],
    customers := [], users := [], referral_earnings := [], settings := [],
    reference_bonus_percent := 0 }

/-- State in which the sample order was already reserved and confirmed
by an admin, but the stock on hand (2) is below the order quantity (3):
the corrupted-bookkeeping scenario of deduct_inventory. -/
def sampleShortState : DBState :=
  { sampleState with
    orders := [{ sampleOrder with order_status := "confirmed" }],
    goods := [{ sampleGoods with stock_quantity := 2, reserved_quantity := 3 }] }

/-- State with the sample order cancelled, to exercise reserve on a
terminal-status order. -/
def sampleCancelledState : DBState :=
  { sampleState with
    orders := [{ sampleOrder with order_status := "cancelled" }] }

/-- State with two reserved orders whose deadlines have passed, one
carrying an applied bonus, plus the matching reservations and a
CustomerInfo row for the buyer. -/
def sampleDueState : DBState :=
  { sampleState with
    orders := [
      { sampleOrder with order_status := "reserved", reserved_until := some (-5),
                         bonus_applied := 2, order_code := "DUE001" },
      { sampleOrder with id := 2, order_status := "reserved", reserved_until := some (-3),
                         order_code := "DUE002" }],
    goods := [{ sampleGoods with reserved_quantity := 6 }],
    customers := [{ telegram_id := 7, bonus_balance := 1, total_spendings := 0,
                    completed_orders_count := 0 }] }

/-- Pool state with one already-used address still present in the
backing file (together with a comment line and a second address). -/
def sampleBtc : BtcState :=
  { addresses := [{ address := "addr1", is_used := false, used_by := none,
                    used_at := none, order_id := none }],
    file := ["# comment", "", "addr1", "addr2"] }

/- ------------------------------------------------------------------
   Lemma layer
   ------------------------------------------------------------------ -/

theorem find?_map_pres {α : Type} (h : α → α) (p : α → Bool)
    (hp : ∀ a, p (h a) = p a) (l : List α) :
    (l.map h).find? p = (l.find? p).map h := by
  induction l with
  | nil => rfl
  | cons a l ih =>
      by_cases hpa : p a = true
      · simp [List.find?_cons, hp, hpa]
      · simp only [Bool.not_eq_true] at hpa
        simp [List.find?_cons, hp, hpa, ih]

theorem findGoods_some_name {gs : List Goods} {nm : String} {g : Goods}
    (h : findGoods gs nm = some g) : g.name = nm := by
  have hp := List.find?_some h
  simpa using hp

theorem findGoods_updateGoods (nm x : String) (f : Goods → Goods)
    (hf : ∀ g, (f g).name = g.name) (gs : List Goods) :
    findGoods (updateGoods nm f gs) x =
      (findGoods gs x).map (fun g => if g.name == nm then f g else g) := by
  unfold findGoods updateGoods
  apply find?_map_pres
  intro g
  by_cases hg : g.name == nm
  · simp [hg, hf]
  · simp [hg]

theorem findOrder_update (s : DBState) (oid oid2 : Nat) (f : Order → Order)
    (hf : ∀ o, (f o).id = o.id) :
    findOrder (updateOrder s oid f) oid2 =
      (findOrder s oid2).map (fun o => if o.id == oid then f o else o) := by
  unfold findOrder updateOrder
  apply find?_map_pres
  intro o
  by_cases ho : o.id == oid
  · simp [ho, hf]
  · simp [ho]

theorem findOrderByCode_update (s : DBState) (c c2 : String) (f : Order → Order)
    (hf : ∀ o, (f o).order_code = o.order_code) :
    findOrderByCode (updateOrderByCode s c f) c2 =
      (findOrderByCode s c2).map (fun o => if o.order_code == c then f o else o) := by
  unfold findOrderByCode updateOrderByCode
  apply find?_map_pres
  intro o
  by_cases ho : o.order_code == c
  · simp [ho, hf]
  · simp [ho]

theorem qtyTotal_nil (nm : String) : qtyTotal [] nm = 0 := rfl

theorem qtyTotal_cons (it : OrderItem) (rest : List OrderItem) (nm : String) :
    qtyTotal (it :: rest) nm =
      if it.item_name == nm then it.quantity + qtyTotal rest nm else qtyTotal rest nm := rfl

theorem qtyTotal_nonneg (items : List OrderItem) (nm : String)
    (h : ∀ it ∈ items, 0 ≤ it.quantity) : 0 ≤ qtyTotal items nm := by
  induction items with
  | nil => simp [qtyTotal_nil]
  | cons it rest ih =>
      rw [qtyTotal_cons]
      have h1 : 0 ≤ it.quantity := h it (by simp)
      have h2 : 0 ≤ qtyTotal rest nm := ih (fun x hx => h x (by simp [hx]))
      by_cases hc : it.item_name == nm
      · simp [hc]; omega
      · simp [hc, h2]

theorem reserveLoop_ok_shape (oid : Nat) (oref pm : String) :
    ∀ (items : List OrderItem) (gs gs2 : List Goods) (logs : List InventoryLog),
    reserveLoop oid oref pm items gs = Except.ok (gs2, logs) →
    gs2 = gs.map (fun g =>
      { g with reserved_quantity := g.reserved_quantity + qtyTotal items g.name }) := by
  intro items
  induction items with
  | nil =>
      intro gs gs2 logs h
      simp only [reserveLoop] at h
      have hgs : gs2 = gs := by
        cases h
        rfl
      subst hgs
      have hfun : (fun (g : Goods) =>
          { g with reserved_quantity := g.reserved_quantity + qtyTotal [] g.name })
          = fun (g : Goods) => g := by
        funext g
        cases g
        simp [qtyTotal_nil]
      rw [hfun]
      simp
  | cons it rest ih =>
      intro gs gs2 logs h
      simp only [reserveLoop] at h
      split at h
      · exact absurd h (by simp)
      · rename_i g hfind
        split at h
        · exact absurd h (by simp)
        · rename_i hav
          split at h
          · exact absurd h (by simp)
          · rename_i p gsFin logs0 hrec
            have hshape := ih _ _ _ hrec
            have hgs2 : gs2 = gsFin := by
              cases h
              rfl
            subst hgs2
            rw [hshape]
            unfold updateGoods
            rw [List.map_map]
            apply List.map_congr_left
            intro a _
            by_cases ha : a.name == it.item_name
            · have haeq : a.name = it.item_name := by simpa using ha
              simp only [Function.comp, ha, if_pos]
              have hcond : (it.item_name == a.name) = true := by
                simp [haeq]
              rw [qtyTotal_cons, if_pos hcond]
              cases a
              simp
              omega
            · have hfalse : (a.name == it.item_name) = false := by
                simpa using ha
              have haeq : ¬ a.name = it.item_name := by simpa using hfalse
              have hcond : (it.item_name == a.name) = false := by
                simp only [beq_eq_false_iff_ne, ne_eq]
                intro hx
                exact absurd hx.symm haeq
              simp [Function.comp, hfalse, qtyTotal_cons, hcond]

theorem releaseLoop_effect (oid : Nat) (reason oref : String) :
    ∀ (items : List OrderItem) (gs : List Goods),
    (∀ it ∈ items, 0 ≤ it.quantity) →
    (∀ g ∈ gs, qtyTotal items g.name ≤ g.reserved_quantity) →
    (releaseLoop oid reason oref items gs).1 = gs.map (fun g =>
      { g with reserved_quantity := g.reserved_quantity - qtyTotal items g.name }) := by
  intro items
  induction items with
  | nil =>
      intro gs _ _
      have hfun : (fun (g : Goods) =>
          { g with reserved_quantity := g.reserved_quantity - qtyTotal [] g.name })
          = fun (g : Goods) => g := by
        funext g
        cases g
        simp [qtyTotal_nil]
      rw [hfun]
      simp [releaseLoop]
  | cons it rest ih =>
      intro gs hq hr
      have hqrest : ∀ x ∈ rest, 0 ≤ x.quantity := fun x hx => hq x (by simp [hx])
      have hq0 : 0 ≤ it.quantity := hq it (by simp)
      simp only [releaseLoop]
      cases hfind : findGoods gs it.item_name with
      | none =>
          have hnone : ∀ g ∈ gs, (it.item_name == g.name) = false := by
            intro g hg
            have hall := List.find?_eq_none.mp hfind g hg
            simp only [beq_eq_false_iff_ne, ne_eq]
            intro hx
            exact hall (by simp [hx])
          have hr2 : ∀ g ∈ gs, qtyTotal rest g.name ≤ g.reserved_quantity := by
            intro g hg
            have := hr g hg
            rwa [qtyTotal_cons, if_neg (by simp [hnone g hg])] at this
          rw [ih gs hqrest hr2]
          apply List.map_congr_left
          intro g hg
          rw [qtyTotal_cons, if_neg (by simp [hnone g hg])]
      | some g0 =>
          set f0 := fun (g0 : Goods) =>
            let r := g0.reserved_quantity - it.quantity
            { g0 with reserved_quantity := if r < 0 then 0 else r } with hf0
          have hstep : ∀ g ∈ gs, (g.name == it.item_name) = true →
              f0 g = { g with reserved_quantity := g.reserved_quantity - it.quantity } ∧
              qtyTotal rest g.name ≤ g.reserved_quantity - it.quantity := by
            intro g hg hmatch
            have hgname : g.name = it.item_name := by simpa using hmatch
            have htot := hr g hg
            rw [qtyTotal_cons, if_pos (by simp [hgname])] at htot
            have htr : 0 ≤ qtyTotal rest g.name := qtyTotal_nonneg rest g.name hqrest
            constructor
            · rw [hf0]
              simp only
              rw [if_neg (by omega)]
            · omega
          have hr2 : ∀ g2 ∈ updateGoods it.item_name f0 gs,
              qtyTotal rest g2.name ≤ g2.reserved_quantity := by
            intro g2 hg2
            unfold updateGoods at hg2
            obtain ⟨g, hg, hmap⟩ := List.mem_map.mp hg2
            by_cases hm : (g.name == it.item_name) = true
            · rw [if_pos hm] at hmap
              obtain ⟨hfg, hbound⟩ := hstep g hg hm
              rw [hfg] at hmap
              rw [← hmap]
              simpa using hbound
            · rw [if_neg hm] at hmap
              rw [← hmap]
              have := hr g hg
              rwa [qtyTotal_cons, if_neg (by
                simp only [beq_iff_eq]
                intro hx
                exact hm (by simp [hx.symm]))] at this
          rw [ih (updateGoods it.item_name f0 gs) hqrest hr2]
          unfold updateGoods
          rw [List.map_map]
          apply List.map_congr_left
          intro g hg
          by_cases hm : (g.name == it.item_name) = true
          · obtain ⟨hfg, _⟩ := hstep g hg hm
            have hgname : g.name = it.item_name := by simpa using hm
            simp only [Function.comp, hm, if_pos, hfg]
            rw [qtyTotal_cons, if_pos (by simp [hgname])]
            cases g
            simp
            omega
          · have hfalse : (g.name == it.item_name) = false := by
              simpa using hm
            have hcond : (it.item_name == g.name) = false := by
              simp only [beq_eq_false_iff_ne, ne_eq]
              intro hx
              exact hm (by simp [hx.symm])
            simp [Function.comp, hfalse, qtyTotal_cons, hcond]

theorem findGoods_isSome_updateGoods (nm x : String) (f : Goods → Goods)
    (hf : ∀ g, (f g).name = g.name) (gs : List Goods) :
    (findGoods (updateGoods nm f gs) x).isSome = (findGoods gs x).isSome := by
  rw [findGoods_updateGoods nm x f hf gs]
  cases findGoods gs x <;> rfl

theorem reserveLoop_insufficient (oid : Nat) (oref pm : String) :
    ∀ (items : List OrderItem) (gs : List Goods),
    (∀ it ∈ items, 0 ≤ it.quantity) →
    (∀ it ∈ items, (findGoods gs it.item_name).isSome) →
    (∃ it ∈ items, ∃ g, findGoods gs it.item_name = some g ∧
        g.stock_quantity - g.reserved_quantity < it.quantity) →
    ∃ nm avail req,
      reserveLoop oid oref pm items gs = Except.error (insufficientMsg nm avail req) ∧
      avail < req ∧ ∃ it ∈ items, it.item_name = nm ∧ it.quantity = req := by
  intro items
  induction items with
  | nil =>
      intro gs _ _ hshort
      obtain ⟨it, hmem, _⟩ := hshort
      exact absurd hmem (by simp)
  | cons it rest ih =>
      intro gs hq hex hshort
      have hhead : (findGoods gs it.item_name).isSome := hex it (by simp)
      obtain ⟨g, hg⟩ := Option.isSome_iff_exists.mp hhead
      by_cases hav : g.stock_quantity - g.reserved_quantity < it.quantity
      · refine ⟨it.item_name, g.stock_quantity - g.reserved_quantity, it.quantity, ?_, hav,
          it, by simp, rfl, rfl⟩
        simp only [reserveLoop, hg]
        rw [if_pos hav]
      · set f0 := fun (g0 : Goods) =>
          { g0 with reserved_quantity := g0.reserved_quantity + it.quantity } with hf0
        have hf0name : ∀ g0, (f0 g0).name = g0.name := fun g0 => rfl
        set gs2 := updateGoods it.item_name f0 gs with hgs2
        have hfind2 : ∀ x : String, findGoods gs2 x =
            (findGoods gs x).map (fun g0 => if g0.name == it.item_name then f0 g0 else g0) :=
          fun x => findGoods_updateGoods it.item_name x f0 hf0name gs
        have hex2 : ∀ x ∈ rest, (findGoods gs2 x.item_name).isSome := by
          intro x hx
          rw [hfind2]
          have := hex x (by simp [hx])
          cases hc : findGoods gs x.item_name
          · rw [hc] at this
            exact absurd this (by simp)
          · rfl
        have hshort2 : ∃ x ∈ rest, ∃ g2, findGoods gs2 x.item_name = some g2 ∧
            g2.stock_quantity - g2.reserved_quantity < x.quantity := by
          obtain ⟨x, hxmem, gx, hgx, hxshort⟩ := hshort
          rcases List.mem_cons.mp hxmem with hxit | hxrest
          · subst hxit
            rw [hg] at hgx
            cases hgx
            exact absurd hxshort hav
          · refine ⟨x, hxrest, ?_⟩
            rw [hfind2, hgx]
            by_cases hnm : gx.name = it.item_name
            · refine ⟨f0 gx, by simp [hnm], ?_⟩
              rw [hf0]
              simp only
              have hq0 : 0 ≤ it.quantity := hq it (by simp)
              omega
            · exact ⟨gx, by simp [hnm], hxshort⟩
        have hqrest : ∀ x ∈ rest, 0 ≤ x.quantity := fun x hx => hq x (by simp [hx])
        obtain ⟨nm, avail, req, herr, hlt, x, hxmem, hxnm, hxq⟩ := ih gs2 hqrest hex2 hshort2
        refine ⟨nm, avail, req, ?_, hlt, x, by simp [hxmem], hxnm, hxq⟩
        simp only [reserveLoop, hg]
        rw [if_neg hav, ← hgs2, herr]

theorem qtyTotal_eq_zero_of_not_mem (items : List OrderItem) (nm : String)
    (h : nm ∉ items.map (fun it => it.item_name)) : qtyTotal items nm = 0 := by
  induction items with
  | nil => rfl
  | cons it rest ih =>
      rw [qtyTotal_cons, if_neg]
      · exact ih (by intro hx; exact h (by simp at hx ⊢; right; exact hx))
      · simp only [beq_iff_eq]
        intro hx
        exact h (by simp [hx])

theorem qtyTotal_nodup (items : List OrderItem)
    (hnd : (items.map (fun it => it.item_name)).Nodup) (it : OrderItem) (hit : it ∈ items) :
    qtyTotal items it.item_name = it.quantity := by
  induction items with
  | nil => exact absurd hit (by simp)
  | cons a rest ih =>
      have hnd2 : (rest.map (fun x => x.item_name)).Nodup := by
        simpa using hnd.of_cons
      rcases List.mem_cons.mp hit with hia | hirest
      · subst hia
        rw [qtyTotal_cons, if_pos (by simp)]
        have hnot : it.item_name ∉ rest.map (fun x => x.item_name) := by
          have := hnd
          simp only [List.map_cons, List.nodup_cons] at this
          exact this.1
        rw [qtyTotal_eq_zero_of_not_mem rest it.item_name hnot]
        omega
      · have hne : ¬ a.item_name = it.item_name := by
          intro hx
          have hmem : it.item_name ∈ rest.map (fun x => x.item_name) :=
            List.mem_map.mpr ⟨it, hirest, rfl⟩
          have := hnd
          simp only [List.map_cons, List.nodup_cons] at this
          exact this.1 (hx ▸ hmem)
        rw [qtyTotal_cons, if_neg (by simpa using hne)]
        exact ih hnd2 hirest

theorem find?_key_self {α β : Type} [BEq β] [LawfulBEq β] (key : α → β) (l : List α)
    (hnd : (l.map key).Nodup) (a : α) (ha : a ∈ l) :
    l.find? (fun x => key x == key a) = some a := by
  induction l with
  | nil => exact absurd ha (by simp)
  | cons b l ih =>
      rcases List.mem_cons.mp ha with hab | hal
      · subst hab
        simp [List.find?_cons]
      · have hne : key b ≠ key a := by
          intro hx
          have hmem : key a ∈ l.map key := List.mem_map.mpr ⟨a, hal, rfl⟩
          have := hnd
          simp only [List.map_cons, List.nodup_cons] at this
          exact this.1 (hx ▸ hmem)
        have hnd2 : (l.map key).Nodup := by
          have := hnd
          simp only [List.map_cons, List.nodup_cons] at this
          exact this.2
        have hb : (key b == key a) = false := by simp [hne]
        rw [List.find?_cons, hb]
        exact ih hnd2 hal

theorem updateGoods_names (nm : String) (f : Goods → Goods)
    (hf : ∀ g, (f g).name = g.name) (gs : List Goods) :
    (updateGoods nm f gs).map (fun g => g.name) = gs.map (fun g => g.name) := by
  unfold updateGoods
  rw [List.map_map]
  apply List.map_congr_left
  intro g _
  by_cases hm : (g.name == nm) = true
  · simp [Function.comp, hm, hf]
  · simp [Function.comp, hm]

theorem reserveLoop_ok_of_sufficient (oid : Nat) (oref pm : String) :
    ∀ (items : List OrderItem) (gs : List Goods),
    (items.map (fun it => it.item_name)).Nodup →
    (∀ it ∈ items, ∃ g, findGoods gs it.item_name = some g ∧
        it.quantity ≤ g.stock_quantity - g.reserved_quantity) →
    ∃ gs2 logs, reserveLoop oid oref pm items gs = Except.ok (gs2, logs) := by
  intro items
  induction items with
  | nil =>
      intro gs _ _
      exact ⟨gs, [], rfl⟩
  | cons it rest ih =>
      intro gs hnd hsuff
      obtain ⟨g, hg, hgq⟩ := hsuff it (by simp)
      have hav : ¬ g.stock_quantity - g.reserved_quantity < it.quantity := by omega
      set f0 := fun (g0 : Goods) =>
        { g0 with reserved_quantity := g0.reserved_quantity + it.quantity } with hf0
      have hf0name : ∀ g0, (f0 g0).name = g0.name := fun g0 => rfl
      have hnd2 : (rest.map (fun x => x.item_name)).Nodup := by
        simpa using hnd.of_cons
      have hsuff2 : ∀ x ∈ rest, ∃ g2, findGoods (updateGoods it.item_name f0 gs) x.item_name
          = some g2 ∧ x.quantity ≤ g2.stock_quantity - g2.reserved_quantity := by
        intro x hx
        obtain ⟨gx, hgx, hgxq⟩ := hsuff x (by simp [hx])
        have hne : ¬ gx.name = it.item_name := by
          have hgxnm : gx.name = x.item_name := findGoods_some_name hgx
          rw [hgxnm]
          intro hxeq
          have hmem : x.item_name ∈ rest.map (fun y => y.item_name) :=
            List.mem_map.mpr ⟨x, hx, rfl⟩
          have := hnd
          simp only [List.map_cons, List.nodup_cons] at this
          exact this.1 (hxeq ▸ hmem)
        refine ⟨gx, ?_, hgxq⟩
        rw [findGoods_updateGoods it.item_name x.item_name f0 hf0name gs, hgx]
        simp [hne]
      obtain ⟨gs2, logs, hok⟩ := ih (updateGoods it.item_name f0 gs) hnd2 hsuff2
      refine ⟨gs2, reserveLogEntry it.item_name it.quantity oid oref pm :: logs, ?_⟩
      simp only [reserveLoop, hg]
      rw [if_neg hav, ← hf0, hok]

theorem deductLoop_ok_of_sufficient (oid : Nat) (adm : Option Int) (oref : String) :
    ∀ (items : List OrderItem) (gs : List Goods),
    (items.map (fun it => it.item_name)).Nodup →
    (∀ it ∈ items, ∃ g, findGoods gs it.item_name = some g ∧
        it.quantity ≤ g.stock_quantity) →
    ∃ gs2 logs, deductLoop oid adm oref items gs = Except.ok (gs2, logs) ∧
      (∀ it ∈ items, ∃ g, findGoods gs it.item_name = some g ∧
        findGoods gs2 it.item_name = some
          { g with stock_quantity := g.stock_quantity - it.quantity,
                   reserved_quantity := if g.reserved_quantity - it.quantity < 0 then 0
                     else g.reserved_quantity - it.quantity }) ∧
      (∀ nm : String, (∀ it ∈ items, it.item_name ≠ nm) →
        findGoods gs2 nm = findGoods gs nm) := by
  intro items
  induction items with
  | nil =>
      intro gs _ _
      exact ⟨gs, [], rfl, by simp, fun nm _ => rfl⟩
  | cons it rest ih =>
      intro gs hnd hsuff
      obtain ⟨g, hg, hgq⟩ := hsuff it (by simp)
      have hcheck : ¬ g.stock_quantity - it.quantity < 0 := by omega
      set f0 := fun (g0 : Goods) =>
        let r := g0.reserved_quantity - it.quantity
        { g0 with stock_quantity := g0.stock_quantity - it.quantity,
                  reserved_quantity := if r < 0 then 0 else r } with hf0
      have hf0name : ∀ g0, (f0 g0).name = g0.name := fun g0 => rfl
      have hnd2 : (rest.map (fun x => x.item_name)).Nodup := by
        simpa using hnd.of_cons
      have hheadnot : it.item_name ∉ rest.map (fun x => x.item_name) := by
        have := hnd
        simp only [List.map_cons, List.nodup_cons] at this
        exact this.1
      have hfind2 : ∀ x : String, findGoods (updateGoods it.item_name f0 gs) x =
          (findGoods gs x).map (fun g0 => if g0.name == it.item_name then f0 g0 else g0) :=
        fun x => findGoods_updateGoods it.item_name x f0 hf0name gs
      have hsuff2 : ∀ x ∈ rest, ∃ g2, findGoods (updateGoods it.item_name f0 gs) x.item_name
          = some g2 ∧ x.quantity ≤ g2.stock_quantity := by
        intro x hx
        obtain ⟨gx, hgx, hgxq⟩ := hsuff x (by simp [hx])
        have hne : ¬ gx.name = it.item_name := by
          have hgxnm : gx.name = x.item_name := findGoods_some_name hgx
          rw [hgxnm]
          intro hxeq
          exact hheadnot (hxeq ▸ List.mem_map.mpr ⟨x, hx, rfl⟩)
        refine ⟨gx, ?_, hgxq⟩
        rw [hfind2, hgx]
        simp [hne]
      obtain ⟨gs2, logs, hok, hpoint, hframe⟩ :=
        ih (updateGoods it.item_name f0 gs) hnd2 hsuff2
      refine ⟨gs2, deductLogEntry it.item_name it.quantity oid adm oref :: logs, ?_, ?_, ?_⟩
      · simp only [deductLoop, hg]
        rw [if_neg hcheck, ← hf0, hok]
      · intro x hx
        rcases List.mem_cons.mp hx with hxit | hxrest
        · subst hxit
          refine ⟨g, hg, ?_⟩
          have hgnm : g.name = x.item_name := findGoods_some_name hg
          have hfr : findGoods gs2 x.item_name =
              findGoods (updateGoods x.item_name f0 gs) x.item_name := by
            apply hframe
            intro y hy hyx
            exact hheadnot (hyx ▸ List.mem_map.mpr ⟨y, hy, rfl⟩)
          rw [hfr, hfind2, hg]
          have hif : (g.name == x.item_name) = true := by simp [hgnm]
          simp only [Option.map_some', hif, if_true]
        · obtain ⟨g2, hg2, hg2fin⟩ := hpoint x hxrest
          have hne : ¬ g2.name = it.item_name := by
            have hg2nm : g2.name = x.item_name := by
              have := List.find?_some hg2
              simpa using this
            rw [hg2nm]
            intro hxeq
            exact hheadnot (hxeq ▸ List.mem_map.mpr ⟨x, hxrest, rfl⟩)
          have hsame : findGoods gs x.item_name = some g2 := by
            have := hg2
            rw [hfind2] at this
            cases hc : findGoods gs x.item_name with
            | none => rw [hc] at this; exact absurd this (by simp)
            | some gy =>
                rw [hc] at this
                simp only [Option.map_some'] at this
                by_cases hym : gy.name = it.item_name
                · exfalso
                  rw [if_pos (by simpa using hym)] at this
                  cases this
                  exact hne (by simpa using hym)
                · rw [if_neg (by simpa using hym)] at this
                  cases this
                  rfl
          exact ⟨g2, hsame, hg2fin⟩
      · intro nm hnm
        have h1 : findGoods gs2 nm = findGoods (updateGoods it.item_name f0 gs) nm := by
          apply hframe
          intro y hy
          exact hnm y (by simp [hy])
        rw [h1, hfind2]
        cases hc : findGoods gs nm with
        | none => rfl
        | some gy =>
            have hynm : gy.name = nm := findGoods_some_name hc
            have hne : ¬ gy.name = it.item_name := by
              rw [hynm]
              intro hx
              exact hnm it (by simp) hx.symm
            simp [hne]

theorem deductLoop_stock_short (oid : Nat) (adm : Option Int) (oref : String) :
    ∀ (items : List OrderItem) (gs : List Goods),
    (∀ it ∈ items, 0 ≤ it.quantity) →
    (∀ it ∈ items, (findGoods gs it.item_name).isSome) →
    (∃ it ∈ items, ∃ g, findGoods gs it.item_name = some g ∧
        g.stock_quantity < it.quantity) →
    ∃ nm, deductLoop oid adm oref items gs = Except.error (stockNegativeMsg nm) ∧
      ∃ it ∈ items, it.item_name = nm := by
  intro items
  induction items with
  | nil =>
      intro gs _ _ hshort
      obtain ⟨it, hmem, _⟩ := hshort
      exact absurd hmem (by simp)
  | cons it rest ih =>
      intro gs hq hex hshort
      have hhead : (findGoods gs it.item_name).isSome := hex it (by simp)
      obtain ⟨g, hg⟩ := Option.isSome_iff_exists.mp hhead
      by_cases hneg : g.stock_quantity - it.quantity < 0
      · refine ⟨it.item_name, ?_, it, by simp, rfl⟩
        simp only [deductLoop, hg]
        rw [if_pos hneg]
      · set f0 := fun (g0 : Goods) =>
          let r := g0.reserved_quantity - it.quantity
          { g0 with stock_quantity := g0.stock_quantity - it.quantity,
                    reserved_quantity := if r < 0 then 0 else r } with hf0
        have hf0name : ∀ g0, (f0 g0).name = g0.name := fun g0 => rfl
        have hfind2 : ∀ x : String, findGoods (updateGoods it.item_name f0 gs) x =
            (findGoods gs x).map (fun g0 => if g0.name == it.item_name then f0 g0 else g0) :=
          fun x => findGoods_updateGoods it.item_name x f0 hf0name gs
        have hex2 : ∀ x ∈ rest, (findGoods (updateGoods it.item_name f0 gs) x.item_name).isSome := by
          intro x hx
          rw [hfind2]
          have := hex x (by simp [hx])
          cases hc : findGoods gs x.item_name
          · rw [hc] at this
            exact absurd this (by simp)
          · rfl
        have hq0 : 0 ≤ it.quantity := hq it (by simp)
        have hshort2 : ∃ x ∈ rest, ∃ g2,
            findGoods (updateGoods it.item_name f0 gs) x.item_name = some g2 ∧
            g2.stock_quantity < x.quantity := by
          obtain ⟨x, hxmem, gx, hgx, hxshort⟩ := hshort
          rcases List.mem_cons.mp hxmem with hxit | hxrest
          · subst hxit
            rw [hg] at hgx
            cases hgx
            omega
          · refine ⟨x, hxrest, ?_⟩
            rw [hfind2, hgx]
            by_cases hnm : gx.name = it.item_name
            · refine ⟨f0 gx, by simp [hnm], ?_⟩
              rw [hf0]
              simp only
              omega
            · exact ⟨gx, by simp [hnm], hxshort⟩
        have hqrest : ∀ x ∈ rest, 0 ≤ x.quantity := fun x hx => hq x (by simp [hx])
        obtain ⟨nm, herr, x, hxmem, hxnm⟩ :=
          ih (updateGoods it.item_name f0 gs) hqrest hex2 hshort2
        refine ⟨nm, ?_, x, by simp [hxmem], hxnm⟩
        simp only [deductLoop, hg]
        rw [if_neg hneg, ← hf0, herr]

theorem releaseLoop_nonneg (oid : Nat) (reason oref : String) :
    ∀ (items : List OrderItem) (gs : List Goods),
    GoodsNonneg gs → GoodsNonneg (releaseLoop oid reason oref items gs).1 := by
  intro items
  induction items with
  | nil =>
      intro gs h
      simpa [releaseLoop] using h
  | cons it rest ih =>
      intro gs h
      simp only [releaseLoop]
      cases hfind : findGoods gs it.item_name with
      | none => exact ih gs h
      | some g0 =>
          apply ih
          intro g2 hg2
          unfold updateGoods at hg2
          obtain ⟨g, hg, hmap⟩ := List.mem_map.mp hg2
          have hgood := h g hg
          by_cases hm : (g.name == it.item_name) = true
          · rw [if_pos hm] at hmap
            rw [← hmap]
            simp only
            constructor
            · split_ifs <;> omega
            · exact hgood.2
          · rw [if_neg hm] at hmap
            rw [← hmap]
            exact hgood

theorem deductLoop_nonneg (oid : Nat) (adm : Option Int) (oref : String) :
    ∀ (items : List OrderItem) (gs gs2 : List Goods) (logs : List InventoryLog),
    (gs.map (fun g => g.name)).Nodup →
    GoodsNonneg gs →
    deductLoop oid adm oref items gs = Except.ok (gs2, logs) →
    GoodsNonneg gs2 := by
  intro items
  induction items with
  | nil =>
      intro gs gs2 logs _ h hok
      simp only [deductLoop] at hok
      cases hok
      exact h
  | cons it rest ih =>
      intro gs gs2 logs hnd h hok
      simp only [deductLoop] at hok
      split at hok
      · exact absurd hok (by simp)
      · rename_i g hg
        split at hok
        · exact absurd hok (by simp)
        · rename_i hneg
          split at hok
          · exact absurd hok (by simp)
          · rename_i p gsFin logs0 hrec
            have hgs2 : gs2 = gsFin := by
              cases hok
              rfl
            subst hgs2
            set f0 := fun (g0 : Goods) =>
              let r := g0.reserved_quantity - it.quantity
              { g0 with stock_quantity := g0.stock_quantity - it.quantity,
                        reserved_quantity := if r < 0 then 0 else r } with hf0
            have hf0name : ∀ g0, (f0 g0).name = g0.name := fun g0 => rfl
            apply ih (updateGoods it.item_name f0 gs) gs2 logs0
            · rw [updateGoods_names it.item_name f0 hf0name gs]
              exact hnd
            · intro g2 hg2
              unfold updateGoods at hg2
              obtain ⟨a, ha, hmap⟩ := List.mem_map.mp hg2
              have hgood := h a ha
              by_cases hm : (a.name == it.item_name) = true
              · have hag : a = g := by
                  have hanm : a.name = it.item_name := by simpa using hm
                  have hfa : findGoods gs a.name = some a := by
                    unfold findGoods
                    exact find?_key_self (fun g0 => g0.name) gs hnd a ha
                  rw [hanm, hg] at hfa
                  exact (Option.some_inj.mp hfa).symm
                rw [if_pos hm] at hmap
                rw [← hmap]
                simp only
                constructor
                · split_ifs <;> omega
                · subst hag
                  omega
              · rw [if_neg hm] at hmap
                rw [← hmap]
                exact hgood
            · exact hrec

theorem findOrder_some_id {s : DBState} {oid : Nat} {o : Order}
    (h : findOrder s oid = some o) : o.id = oid := by
  have hp := List.find?_some h
  simpa using hp

theorem findOrder_goods_irrelevant (w : DBState) (gs : List Goods)
    (logs : List InventoryLog) (oid : Nat) :
    findOrder { w with goods := gs, inventory_logs := logs } oid = findOrder w oid := rfl

theorem release_ok_of_found {w : DBState} {oid : Nat} {o : Order} (reason : String)
    (ext : Bool) (h : findOrder w oid = some o) :
    (release_reservation oid reason ext w).ok = true := by
  simp only [release_reservation, h]

theorem findOrder_customers_irrelevant (w : DBState) (cs : List CustomerInfo) (oid : Nat) :
    findOrder { w with customers := cs } oid = findOrder w oid := rfl

theorem updateOrder_goods (s : DBState) (oid : Nat) (f : Order → Order) :
    (updateOrder s oid f).goods = s.goods := rfl

theorem release_state_frame {w : DBState} {oid2 : Nat} (reason : String) (ext : Bool)
    (oid : Nat) (h : oid ≠ oid2) :
    findOrder (release_reservation oid2 reason ext w).state oid = findOrder w oid := by
  simp only [release_reservation]
  cases hfind : findOrder w oid2 with
  | none => rfl
  | some o =>
      simp only
      rw [findOrder_update]
      · rw [findOrder_goods_irrelevant]
        cases hc : findOrder w oid with
        | none => rfl
        | some o2 =>
            have hid : o2.id = oid := findOrder_some_id hc
            simp [hid, h]
      · intro o2
        rfl

theorem release_state_self {w : DBState} {oid : Nat} {o : Order} (reason : String)
    (ext : Bool) (h : findOrder w oid = some o) :
    findOrder (release_reservation oid reason ext w).state oid =
      some { o with reserved_until := none } := by
  simp only [release_reservation, h]
  rw [findOrder_update]
  · rw [findOrder_goods_irrelevant, h]
    have hid : o.id = oid := findOrder_some_id h
    simp [hid]
  · intro o2
    rfl

theorem sweepOne_self {w : DBState} {o : Order} (h : findOrder w o.id = some o) :
    (sweepOne w o).2 = true ∧
    (findOrder (sweepOne w o).1 o.id).map (fun o2 => o2.order_status) = some "expired" := by
  have hok := release_ok_of_found "Reservation timeout expired" true h
  have hself := release_state_self "Reservation timeout expired" true h
  simp only [sweepOne, hok, if_true]
  set w1 := (release_reservation o.id "Reservation timeout expired" true w).state with hw1
  have hfind2 : findOrder (updateOrder w1 o.id
      (fun od => { od with order_status := "expired" })) o.id =
      some { o with reserved_until := none, order_status := "expired" } := by
    rw [findOrder_update]
    · rw [hself]
      simp
    · intro o2
      rfl
  constructor
  · split
    · split <;> rfl
    · rfl
  · split
    · split
      · rename_i c hc
        rw [findOrder_customers_irrelevant, hfind2]
        rfl
      · rw [hfind2]
        rfl
    · rw [hfind2]
      rfl

theorem sweepOne_frame {w : DBState} {o : Order} (oid : Nat) (h : oid ≠ o.id) :
    findOrder (sweepOne w o).1 oid = findOrder w oid := by
  simp only [sweepOne]
  cases hok : (release_reservation o.id "Reservation timeout expired" true w).ok with
  | false => simp
  | true =>
      simp only [if_true]
      have hrel : findOrder (release_reservation o.id "Reservation timeout expired" true w).state
          oid = findOrder w oid := release_state_frame _ _ oid h
      have hupd : findOrder (updateOrder
          (release_reservation o.id "Reservation timeout expired" true w).state o.id
          (fun od => { od with order_status := "expired" })) oid = findOrder w oid := by
        rw [findOrder_update]
        · rw [hrel]
          cases hc : findOrder w oid with
          | none => rfl
          | some o2 =>
              have hid : o2.id = oid := findOrder_some_id hc
              simp [hid, h]
        · intro o2
          rfl
      split
      · split
        · rename_i c hc
          rw [findOrder_customers_irrelevant]
          exact hupd
        · exact hupd
      · exact hupd

theorem sweepGo_fst_cons (o : Order) (rest : List Order) (w : DBState) :
    (sweepGo (o :: rest) w).1 = (sweepGo rest (sweepOne w o).1).1 := by
  by_cases h : (sweepOne w o).2 <;> simp [sweepGo, h]

theorem sweepGo_frame : ∀ (todo : List Order) (w : DBState) (oid : Nat),
    (∀ o ∈ todo, oid ≠ o.id) →
    findOrder (sweepGo todo w).1 oid = findOrder w oid := by
  intro todo
  induction todo with
  | nil => intro w oid _; rfl
  | cons o rest ih =>
      intro w oid h
      rw [sweepGo_fst_cons]
      rw [ih (sweepOne w o).1 oid (fun x hx => h x (by simp [hx]))]
      exact sweepOne_frame oid (h o (by simp))

theorem sweepGo_expires : ∀ (todo : List Order) (w : DBState),
    (todo.map (fun o => o.id)).Nodup →
    (∀ o ∈ todo, findOrder w o.id = some o) →
    ∀ o ∈ todo, (findOrder (sweepGo todo w).1 o.id).map (fun o2 => o2.order_status)
      = some "expired" := by
  intro todo
  induction todo with
  | nil => intro w _ _ o ho; exact absurd ho (by simp)
  | cons o rest ih =>
      intro w hnd hfound x hx
      have hheadnot : o.id ∉ rest.map (fun o2 => o2.id) := by
        have := hnd
        simp only [List.map_cons, List.nodup_cons] at this
        exact this.1
      have hnd2 : (rest.map (fun o2 => o2.id)).Nodup := by
        simpa using hnd.of_cons
      have hone := sweepOne_self (hfound o (by simp))
      rw [sweepGo_fst_cons]
      rcases List.mem_cons.mp hx with hxo | hxrest
      · subst hxo
        rw [sweepGo_frame rest (sweepOne w x).1 x.id (by
          intro y hy hxy
          exact hheadnot (hxy ▸ List.mem_map.mpr ⟨y, hy, rfl⟩))]
        exact hone.2
      · apply ih (sweepOne w o).1 hnd2 _ x hxrest
        intro y hy
        have hyne : y.id ≠ o.id := by
          intro hxy
          exact hheadnot (hxy ▸ List.mem_map.mpr ⟨y, hy, rfl⟩)
        rw [sweepOne_frame y.id hyne]
        exact hfound y (by simp [hy])

theorem durableState_processed : ∀ (tr : List SweepEvent) (s : DBState),
    (∀ e ∈ tr, isCommitEvent e = false) → durableState s tr = s := by
  intro tr
  induction tr with
  | nil => intro s _; rfl
  | cons e tr ih =>
      intro s h
      cases e with
      | processed oid =>
          have : durableState s (SweepEvent.processed oid :: tr) = durableState s tr := rfl
          rw [this]
          exact ih s (fun x hx => h x (by simp [hx]))
      | commit st =>
          have := h (SweepEvent.commit st) (by simp)
          simp [isCommitEvent] at this

theorem sweepGo_trace : ∀ (todo : List Order) (w : DBState),
    (sweepGo todo w).2.2.2 = todo.map (fun o => SweepEvent.processed o.id) := by
  intro todo
  induction todo with
  | nil => intro w; rfl
  | cons o rest ih =>
      intro w
      by_cases h : (sweepOne w o).2 <;> simp [sweepGo, h, ih]

/- ------------------------------------------------------------------
   Claim theorems
   ------------------------------------------------------------------ -/

/-- C1: the spec claims a successful reserve stamps cash orders with
now + the configured cash timeout and pool-backed/crypto orders with a
fixed 7-day window, so that a pool-backed deadline is at least 24 times
the cash deadline.  The code computes now + cash_order_timeout_hours for
every payment method: reserving the sample bitcoin order (default
configuration, now = 0) succeeds and stores the deadline 86400 s — the
24-hour cash deadline itself, and 24 times the cash deadline (2073600 s)
is not ≤ 86400.  This contradicts reserve_inventory's own docstring
("payment_method ... determines timeout"). -/
theorem c1_bitcoin_order_gets_cash_deadline :
    (reserve_inventory 1 [{ item_name := "Widget", quantity := 3 }] (some "bitcoin") true 0
        sampleState).ok = true ∧
    ((reserve_inventory 1 [{ item_name := "Widget", quantity := 3 }] (some "bitcoin") true 0
        sampleState).state.orders.map (fun o => o.reserved_until)) = [some 86400] ∧
    ¬ ((24 : Int) * 86400 ≤ 86400) := by
  refine ⟨by decide, by decide, by decide⟩

/-- C9 counterexample: with an externally supplied session, a reserve
hitting insufficient stock issues session.rollback() on that session
(and so aborts the caller's surrounding transaction), refuting that
commit/rollback is issued only when the operation created its own
session. -/
theorem c9_external_rollback_counterexample :
    (reserve_inventory 1 [{ item_name := "Widget", quantity := 30 }] (some "cash") true 0
        sampleState).ok = false ∧
    (reserve_inventory 1 [{ item_name := "Widget", quantity := 30 }] (some "cash") true 0
        sampleState).events = [SessionEvent.rollback] := by
  refine ⟨by decide, by decide⟩

/-- C9 amended: on success each operation leaves an externally supplied
session untouched (no commit, rollback or close), so successful
operations do compose into one atomic unit; release_reservation and
add_inventory never touch an external session at all; but on failure
paths reserve_inventory and deduct_inventory either leave the session
untouched (order not found) or roll it back (item missing or
insufficient stock / negative stock). -/
theorem c9_session_usage_amended (s : DBState) (oid : Nat) (items : List OrderItem)
    (pm : Option String) (now : Int) (reason : String) (adm : Option Int)
    (nm : String) (qty : Int) (cmt : Option String) :
    ((reserve_inventory oid items pm true now s).ok = true →
        (reserve_inventory oid items pm true now s).events = []) ∧
    ((reserve_inventory oid items pm true now s).ok = false →
        (reserve_inventory oid items pm true now s).events = [] ∨
        (reserve_inventory oid items pm true now s).events = [SessionEvent.rollback]) ∧
    (release_reservation oid reason true s).events = [] ∧
    ((deduct_inventory oid adm true s).ok = true →
        (deduct_inventory oid adm true s).events = []) ∧
    ((deduct_inventory oid adm true s).ok = false →
        (deduct_inventory oid adm true s).events = [] ∨
        (deduct_inventory oid adm true s).events = [SessionEvent.rollback]) ∧
    (add_inventory nm qty adm cmt true s).events = [] := by
  refine ⟨?_, ?_, ?_, ?_, ?_, ?_⟩
  · simp only [reserve_inventory]
    split
    · simp
    · split <;> simp
  · simp only [reserve_inventory]
    split
    · simp
    · split <;> simp
  · simp only [release_reservation]
    split <;> simp
  · simp only [deduct_inventory]
    split
    · simp
    · split <;> simp
  · simp only [deduct_inventory]
    split
    · simp
    · split <;> simp
  · simp only [add_inventory]
    split <;> simp

/-- C9 witness: the amended theorem applied to the sample state — a
successful external-session reserve performs no session action, and an
external-session release never does. -/
theorem c9_witness :
    (reserve_inventory 1 [{ item_name := "Widget", quantity := 3 }] none true 0
        sampleState).events = [] ∧
    (release_reservation 1 "Order cancelled" true sampleState).events = [] :=
  ⟨(c9_session_usage_amended sampleState 1 [{ item_name := "Widget", quantity := 3 }]
      none 0 "Order cancelled" none "Widget" 1 none).1 (by decide),
   (c9_session_usage_amended sampleState 1 [{ item_name := "Widget", quantity := 3 }]
      none 0 "Order cancelled" none "Widget" 1 none).2.2.1⟩

/-- C8 counterexample: the sample order is pending and was never
reserved (reserved_until is null), yet confirm_order_with_delivery_time
moves it straight to confirmed — the claimed state-machine invariant
(no transition into confirmed while reserved_until is null and status
has not moved past pending) does not hold. -/
theorem c8_never_reserved_confirm_counterexample :
    sampleOrder.order_status = "pending" ∧ sampleOrder.reserved_until = none ∧
    ((confirm_order_with_delivery_time "ABC123" 1000 0 sampleState).orders.map
        (fun o => o.order_status)) = ["confirmed"] := by
  refine ⟨rfl, rfl, by decide⟩

/-- C4 counterexample: deduct on the corrupted sample state (order
quantity 3, stock 2) does abort the transaction and leave every stock
count unchanged, but no data-integrity fault is reported at critical
severity: the operation makes no logging call at all — it only returns
the same shape of business-failure result (false, message) as an
ordinary rejection. -/
theorem c4_no_critical_fault_counterexample :
    (deduct_inventory 1 (some 0) true sampleShortState).ok = false ∧
    (deduct_inventory 1 (some 0) true sampleShortState).msg = stockNegativeMsg "Widget" ∧
    (deduct_inventory 1 (some 0) true sampleShortState).state = sampleShortState ∧
    (deduct_inventory 1 (some 0) true sampleShortState).logger_calls = [] := by
  refine ⟨by decide, by decide, by decide, by decide⟩

/-- C5 counterexample: the sample state has two due orders; one sweep
cycle processes both but performs exactly one commit, at the very end.
After the trace prefix in which the first order has already been
processed, the durable (committed) state is still the initial one, in
which that order is still reserved — so a crash mid-sweep does NOT
leave already-processed orders expired, refuting the per-order
transaction claim. -/
theorem c5_per_order_transaction_counterexample :
    (cleanup_expired_reservations 0 sampleDueState).count = 2 ∧
    (cleanup_expired_reservations 0 sampleDueState).trace.take 1
      = [SweepEvent.processed 1] ∧
    durableState sampleDueState
      ((cleanup_expired_reservations 0 sampleDueState).trace.take 1) = sampleDueState ∧
    ((findOrder sampleDueState 1).map (fun o => o.order_status)) = some "reserved" ∧
    (((cleanup_expired_reservations 0 sampleDueState).trace.filter isCommitEvent)).length
      = 1 := by
  refine ⟨by decide, by decide, by decide, by decide, by decide⟩

/-- C3 counterexample: marking the same pool token used twice succeeds
both times; the second call is not a failure and not a no-op — it
overwrites the assignee and order recorded by the first call
(mark_bitcoin_address_used never checks is_used, only existence). -/
theorem c3_mark_used_twice_counterexample :
    (mark_bitcoin_address_used "addr1" 7 1 0 sampleBtc).1 = true ∧
    ((mark_bitcoin_address_used "addr1" 7 1 0 sampleBtc).2.addresses.map
        (fun a => a.is_used)) = [true] ∧
    (mark_bitcoin_address_used "addr1" 8 2 5
        (mark_bitcoin_address_used "addr1" 7 1 0 sampleBtc).2).1 = true ∧
    ((mark_bitcoin_address_used "addr1" 8 2 5
        (mark_bitcoin_address_used "addr1" 7 1 0 sampleBtc).2).2.addresses.map
        (fun a => a.used_by)) = [some 8] := by
  refine ⟨by decide, by decide, by decide, by decide⟩

/-- C3 amended: markUsed fails (false, no change) only when the token
does not exist; whenever the token exists — used already or not — the
call returns true, (over)writes assignee, timestamp and order on the
token row, and removes the token from the backing file (keeping blank
and comment lines). -/
theorem c3_mark_used_amended (st : BtcState) (address : String) (uid oid2 : Nat) (now : Int) :
    (st.addresses.find? (fun a => a.address == address) = none →
        mark_bitcoin_address_used address uid oid2 now st = (false, st)) ∧
    ((st.addresses.find? (fun a => a.address == address)).isSome →
        (mark_bitcoin_address_used address uid oid2 now st).1 = true ∧
        (∀ a2 ∈ (mark_bitcoin_address_used address uid oid2 now st).2.addresses,
            a2.address = address →
              a2.is_used = true ∧ a2.used_by = some uid ∧ a2.order_id = some oid2 ∧
                a2.used_at = some now) ∧
        (∀ line ∈ (mark_bitcoin_address_used address uid oid2 now st).2.file,
            line.trim = "" ∨ line.trim.startsWith "#" ∨ line.trim ≠ address)) := by
  constructor
  · intro h
    simp [mark_bitcoin_address_used, h]
  · intro h
    obtain ⟨a0, ha0⟩ := Option.isSome_iff_exists.mp h
    simp only [mark_bitcoin_address_used, ha0]
    refine ⟨by trivial, ?_, ?_⟩
    · intro a2 ha2 haddr
      obtain ⟨a, ha, hmap⟩ := List.mem_map.mp ha2
      by_cases hm : (a.address == address) = true
      · rw [if_pos hm] at hmap
        rw [← hmap]
        exact ⟨rfl, rfl, rfl, rfl⟩
      · rw [if_neg hm] at hmap
        rw [← hmap] at haddr
        exact absurd (by simp [haddr]) hm
    · intro line hline
      simp only [remove_bitcoin_address_from_file, List.mem_filter] at hline
      have hpred := hline.2
      simp only [Bool.or_eq_true, beq_iff_eq, bne_iff_ne, ne_eq,
        decide_eq_true_eq] at hpred
      tauto

/-- C3 witness: the amended theorem applied to the sample pool — the
token exists, so the call succeeds and every remaining file line is
blank, a comment, or a different token. -/
theorem c3_witness :
    (mark_bitcoin_address_used "addr1" 7 1 0 sampleBtc).1 = true ∧
    (∀ line ∈ (mark_bitcoin_address_used "addr1" 7 1 0 sampleBtc).2.file,
        line.trim = "" ∨ line.trim.startsWith "#" ∨ line.trim ≠ "addr1") :=
  ⟨((c3_mark_used_amended sampleBtc "addr1" 7 1 0).2 (by decide)).1,
   ((c3_mark_used_amended sampleBtc "addr1" 7 1 0).2 (by decide)).2.2⟩

/-- C2: reserving is all-or-nothing — when the order exists, every
requested item row exists, and some requested item has fewer available
units (stock minus reserved) than requested, reserve_inventory returns
failure, the whole transaction is rolled back so the returned session
state is exactly the initial one (every reserved_quantity unchanged),
and the failure message is the insufficient-stock message naming an
offending requested item with its availability and requested quantity. -/
theorem c2_reserve_all_or_nothing (s : DBState) (oid : Nat) (items : List OrderItem)
    (pm : Option String) (ext : Bool) (now : Int) (order : Order)
    (horder : findOrder s oid = some order)
    (hq : ∀ it ∈ items, 0 ≤ it.quantity)
    (hex : ∀ it ∈ items, (findGoods s.goods it.item_name).isSome)
    (hshort : ∃ it ∈ items, ∃ g, findGoods s.goods it.item_name = some g ∧
        g.stock_quantity - g.reserved_quantity < it.quantity) :
    (reserve_inventory oid items pm ext now s).ok = false ∧
    (reserve_inventory oid items pm ext now s).state = s ∧
    SessionEvent.rollback ∈ (reserve_inventory oid items pm ext now s).events ∧
    ∃ nm avail req,
      (reserve_inventory oid items pm ext now s).msg = insufficientMsg nm avail req ∧
      avail < req ∧ ∃ it ∈ items, it.item_name = nm ∧ it.quantity = req := by
  obtain ⟨nm, avail, req, herr, hlt, hwit⟩ := reserveLoop_insufficient oid
    (orderRef order.order_code oid) (pm.getD order.payment_method) items s.goods hq hex hshort
  simp only [reserve_inventory, horder, herr]
  refine ⟨by trivial, by trivial, ?_, nm, avail, req, by trivial, hlt, hwit⟩
  cases ext <;> simp

/-- C2 witness: requesting 30 Widgets when only 10 are available fails
and returns the initial state unchanged. -/
theorem c2_witness :
    (reserve_inventory 1 [{ item_name := "Widget", quantity := 30 }] none true 0
        sampleState).ok = false ∧
    (reserve_inventory 1 [{ item_name := "Widget", quantity := 30 }] none true 0
        sampleState).state = sampleState :=
  ⟨(c2_reserve_all_or_nothing sampleState 1 [{ item_name := "Widget", quantity := 30 }]
      none true 0 sampleOrder (by decide) (by decide) (by decide) (by decide)).1,
   (c2_reserve_all_or_nothing sampleState 1 [{ item_name := "Widget", quantity := 30 }]
      none true 0 sampleOrder (by decide) (by decide) (by decide) (by decide)).2.1⟩

/-- C10: reserve_inventory checks only that the order row exists — it
never inspects order_status.  For any existing order, in any status
(the witness uses a cancelled one), a request with distinct item names
and sufficient availability succeeds, increments each requested item's
reserved_quantity by its quantity (stock untouched), overwrites the
status to reserved and stamps the deadline now + configured cash
timeout. -/
theorem c10_reserve_ignores_order_status (s : DBState) (oid : Nat) (items : List OrderItem)
    (pm : Option String) (ext : Bool) (now : Int) (order : Order)
    (horder : findOrder s oid = some order)
    (hnd : (items.map (fun it => it.item_name)).Nodup)
    (hsuff : ∀ it ∈ items, ∃ g, findGoods s.goods it.item_name = some g ∧
        it.quantity ≤ g.stock_quantity - g.reserved_quantity) :
    (reserve_inventory oid items pm ext now s).ok = true ∧
    (findOrder (reserve_inventory oid items pm ext now s).state oid = some
        { order with
            reserved_until :=
              some (now + get_bot_setting_int s "cash_order_timeout_hours" 24 * 3600),
            order_status := "reserved" }) ∧
    (∀ it ∈ items, ∃ g, findGoods s.goods it.item_name = some g ∧
        findGoods (reserve_inventory oid items pm ext now s).state.goods it.item_name
          = some { g with reserved_quantity := g.reserved_quantity + it.quantity }) := by
  obtain ⟨gs2, logs, hok⟩ := reserveLoop_ok_of_sufficient oid
    (orderRef order.order_code oid) (pm.getD order.payment_method) items s.goods hnd hsuff
  have hshape := reserveLoop_ok_shape oid (orderRef order.order_code oid)
    (pm.getD order.payment_method) items s.goods gs2 logs hok
  have hfindmap : ∀ nm, findGoods gs2 nm = (findGoods s.goods nm).map
      (fun g => { g with reserved_quantity := g.reserved_quantity + qtyTotal items g.name }) := by
    intro nm
    rw [hshape]
    unfold findGoods
    apply find?_map_pres
    intro a
    rfl
  have hid : order.id = oid := findOrder_some_id horder
  simp only [reserve_inventory, horder, hok]
  refine ⟨by trivial, ?_, ?_⟩
  · rw [findOrder_update]
    · rw [findOrder_goods_irrelevant, horder]
      simp [hid]
    · intro o2
      rfl
  · intro it hit
    obtain ⟨g, hg, _⟩ := hsuff it hit
    have hgname : g.name = it.item_name := findGoods_some_name hg
    refine ⟨g, hg, ?_⟩
    show findGoods gs2 it.item_name = _
    rw [hfindmap it.item_name, hg]
    simp only [Option.map_some']
    rw [hgname, qtyTotal_nodup items hnd it hit]

/-- C10 witness: reserving against the cancelled sample order succeeds
and re-stamps it reserved. -/
theorem c10_witness :
    (reserve_inventory 1 [{ item_name := "Widget", quantity := 3 }] none true 0
        sampleCancelledState).ok = true ∧
    findOrder (reserve_inventory 1 [{ item_name := "Widget", quantity := 3 }] none true 0
        sampleCancelledState).state 1 = some
      { sampleOrder with order_status := "reserved", reserved_until := some 86400 } :=
  ⟨(c10_reserve_ignores_order_status sampleCancelledState 1
      [{ item_name := "Widget", quantity := 3 }] none true 0
      { sampleOrder with order_status := "cancelled" }
      (by decide) (by decide) (by decide)).1,
   (c10_reserve_ignores_order_status sampleCancelledState 1
      [{ item_name := "Widget", quantity := 3 }] none true 0
      { sampleOrder with order_status := "cancelled" }
      (by decide) (by decide) (by decide)).2.1⟩

/-- C6: starting from a state where every item has nonnegative stock
and reservation counts, each engine operation preserves both bounds:
reserve adds a nonnegative quantity to reserved_quantity, release and
deduct clamp reserved_quantity at zero (so releasing an
already-released order never drives it negative), deduct aborts rather
than let stock_quantity go negative (item names unique, as the name is
the business key), and restock adds a nonnegative amount. -/
theorem c6_nonneg_invariant_preserved (s : DBState) (hs : GoodsNonneg s.goods) :
    (∀ (oid : Nat) (items : List OrderItem) (pm : Option String) (ext : Bool) (now : Int),
        (∀ it ∈ items, 0 ≤ it.quantity) →
        GoodsNonneg (reserve_inventory oid items pm ext now s).state.goods) ∧
    (∀ (oid : Nat) (reason : String) (ext : Bool),
        GoodsNonneg (release_reservation oid reason ext s).state.goods) ∧
    (∀ (oid : Nat) (adm : Option Int) (ext : Bool),
        (s.goods.map (fun g => g.name)).Nodup →
        GoodsNonneg (deduct_inventory oid adm ext s).state.goods) ∧
    (∀ (nm : String) (qty : Int) (adm : Option Int) (cmt : Option String) (ext : Bool),
        0 ≤ qty →
        GoodsNonneg (add_inventory nm qty adm cmt ext s).state.goods) := by
  refine ⟨?_, ?_, ?_, ?_⟩
  · intro oid items pm ext now hq
    simp only [reserve_inventory]
    split
    · exact hs
    · rename_i order horder
      split
      · exact hs
      · rename_i p gs2 logs hok
        have hshape := reserveLoop_ok_shape oid (orderRef order.order_code oid)
          (pm.getD order.payment_method) items s.goods gs2 logs hok
        intro g hg
        have hg2 : g ∈ gs2 := hg
        rw [hshape] at hg2
        obtain ⟨a, ha, hmap⟩ := List.mem_map.mp hg2
        have hgood := hs a ha
        have htot : 0 ≤ qtyTotal items a.name := qtyTotal_nonneg items a.name hq
        rw [← hmap]
        constructor
        · simp only
          omega
        · exact hgood.2
  · intro oid reason ext
    simp only [release_reservation]
    split
    · exact hs
    · rename_i order horder
      rcases hrl : releaseLoop oid reason (orderRef order.order_code oid)
          order.items s.goods with ⟨gs, logs⟩
      simp only [hrl]
      have hnn := releaseLoop_nonneg oid reason (orderRef order.order_code oid)
        order.items s.goods hs
      rw [hrl] at hnn
      exact hnn
  · intro oid adm ext hnd
    simp only [deduct_inventory]
    split
    · exact hs
    · rename_i order horder
      split
      · exact hs
      · rename_i p gs2 logs hok
        exact deductLoop_nonneg oid adm (orderRef order.order_code oid)
          order.items s.goods gs2 logs hnd hs hok
  · intro nm qty adm cmt ext hq
    simp only [add_inventory]
    split
    · exact hs
    · rename_i g0 hg0
      intro g hg
      have hg2 : g ∈ updateGoods nm
          (fun g2 => { g2 with stock_quantity := g2.stock_quantity + qty }) s.goods := hg
      unfold updateGoods at hg2
      obtain ⟨a, ha, hmap⟩ := List.mem_map.mp hg2
      have hgood := hs a ha
      by_cases hm : (a.name == nm) = true
      · rw [if_pos hm] at hmap
        rw [← hmap]
        exact ⟨hgood.1, by simp only; omega⟩
      · rw [if_neg hm] at hmap
        rw [← hmap]
        exact hgood

/-- C6 witness: the four parts of the invariant theorem instantiated on
the sample states. -/
theorem c6_witness :
    GoodsNonneg (reserve_inventory 1 [{ item_name := "Widget", quantity := 3 }]
        none true 0 sampleState).state.goods ∧
    GoodsNonneg (release_reservation 1 "Order cancelled" true sampleState).state.goods ∧
    GoodsNonneg (deduct_inventory 1 none true sampleState).state.goods ∧
    GoodsNonneg (add_inventory "Widget" 5 none none true sampleState).state.goods :=
  ⟨(c6_nonneg_invariant_preserved sampleState (by unfold GoodsNonneg; decide)).1 1
      [{ item_name := "Widget", quantity := 3 }] none true 0 (by decide),
   (c6_nonneg_invariant_preserved sampleState (by unfold GoodsNonneg; decide)).2.1 1 "Order cancelled" true,
   (c6_nonneg_invariant_preserved sampleState (by unfold GoodsNonneg; decide)).2.2.1 1 none true (by decide),
   (c6_nonneg_invariant_preserved sampleState (by unfold GoodsNonneg; decide)).2.2.2 "Widget" 5 none none true
      (by decide)⟩

/-- C7: for every state satisfying the nonnegative stock invariant and
every order whose stored line items equal the reserve request, a
successful reserve followed immediately by release returns every item
row to exactly its pre-reserve value (the whole goods table is
restored) and clears the order's deadline. -/
theorem c7_reserve_release_round_trip (s : DBState) (oid : Nat) (items : List OrderItem)
    (pm : Option String) (ext ext2 : Bool) (now : Int) (reason : String) (order : Order)
    (horder : findOrder s oid = some order)
    (hitems : order.items = items)
    (hs : GoodsNonneg s.goods)
    (hq : ∀ it ∈ items, 0 ≤ it.quantity)
    (hok : (reserve_inventory oid items pm ext now s).ok = true) :
    (release_reservation oid reason ext2
        (reserve_inventory oid items pm ext now s).state).ok = true ∧
    (release_reservation oid reason ext2
        (reserve_inventory oid items pm ext now s).state).state.goods = s.goods ∧
    ∃ o2, findOrder (release_reservation oid reason ext2
        (reserve_inventory oid items pm ext now s).state).state oid = some o2 ∧
      o2.reserved_until = none := by
  cases hloop : reserveLoop oid (orderRef order.order_code oid)
      (pm.getD order.payment_method) items s.goods with
  | error m =>
      exfalso
      simp only [reserve_inventory, horder, hloop] at hok
      exact Bool.noConfusion hok
  | ok p =>
      obtain ⟨gs2, logs⟩ := p
      have hid : order.id = oid := findOrder_some_id horder
      have hshape := reserveLoop_ok_shape oid (orderRef order.order_code oid)
        (pm.getD order.payment_method) items s.goods gs2 logs hloop
      have hbound : ∀ g ∈ gs2, qtyTotal items g.name ≤ g.reserved_quantity := by
        intro g hg
        rw [hshape] at hg
        obtain ⟨a, ha, hmap⟩ := List.mem_map.mp hg
        rw [← hmap]
        simp only
        have := (hs a ha).1
        omega
      simp only [reserve_inventory, horder, hloop]
      have hfind : findOrder (updateOrder
          { s with goods := gs2, inventory_logs := s.inventory_logs ++ logs } oid
          (fun o => { o with
              reserved_until :=
                some (now + get_bot_setting_int s "cash_order_timeout_hours" 24 * 3600),
              order_status := "reserved" })) oid = some { order with
          reserved_until :=
            some (now + get_bot_setting_int s "cash_order_timeout_hours" 24 * 3600),
          order_status := "reserved" } := by
        rw [findOrder_update]
        · rw [findOrder_goods_irrelevant, horder]
          simp [hid]
        · intro o2
          rfl
      simp only [release_reservation, hfind, hitems, updateOrder_goods]
      rcases hrl : releaseLoop oid reason (orderRef order.order_code oid) items gs2
        with ⟨gsF, logsF⟩
      simp only [hrl]
      have heff := releaseLoop_effect oid reason (orderRef order.order_code oid)
        items gs2 hq hbound
      rw [hrl] at heff
      simp only at heff
      rw [hshape, List.map_map] at heff
      have hfun : ((fun g => { g with
            reserved_quantity := g.reserved_quantity - qtyTotal items g.name }) ∘
          (fun g => { g with
            reserved_quantity := g.reserved_quantity + qtyTotal items g.name }))
          = (id : Goods → Goods) := by
        funext a
        cases a
        simp [Function.comp]
      rw [hfun] at heff
      simp only [List.map_id] at heff
      refine ⟨by trivial, ?_, ?_⟩
      · exact heff
      · refine ⟨{ order with order_status := "reserved", reserved_until := none }, ?_, rfl⟩
        rw [findOrder_update]
        · rw [findOrder_goods_irrelevant, hfind]
          simp [hid]
        · intro o2
          rfl

/-- C7 witness: reserve then release on the sample state restores the
goods table and clears the deadline. -/
theorem c7_witness :
    (release_reservation 1 "Order cancelled" true
        (reserve_inventory 1 [{ item_name := "Widget", quantity := 3 }] none true 0
          sampleState).state).state.goods = sampleState.goods :=
  (c7_reserve_release_round_trip sampleState 1 [{ item_name := "Widget", quantity := 3 }]
    none true true 0 "Order cancelled" sampleOrder (by decide) (by decide)
    (by unfold GoodsNonneg; decide) (by decide) (by decide)).2.1

/-- C4 amended: deduct is asymmetric about negative results — if any
line would drive an item's stock below zero the whole transaction is
rolled back, every count is left unchanged and a failure naming the
item is returned, while a reservation count that would go negative is
merely clamped to zero and the deduction succeeds; but the
data-integrity fault is reported only through the returned
business-failure message: the operation makes no logging call, so
nothing is recorded at critical severity. -/
theorem c4_deduct_asymmetry_amended (s : DBState) (oid : Nat) (adm : Option Int) (ext : Bool)
    (order : Order)
    (horder : findOrder s oid = some order)
    (hq : ∀ it ∈ order.items, 0 ≤ it.quantity)
    (hex : ∀ it ∈ order.items, (findGoods s.goods it.item_name).isSome) :
    ((∃ it ∈ order.items, ∃ g, findGoods s.goods it.item_name = some g ∧
        g.stock_quantity < it.quantity) →
      (deduct_inventory oid adm ext s).ok = false ∧
      (deduct_inventory oid adm ext s).state = s ∧
      (deduct_inventory oid adm ext s).logger_calls = [] ∧
      SessionEvent.rollback ∈ (deduct_inventory oid adm ext s).events ∧
      ∃ nm, (deduct_inventory oid adm ext s).msg = stockNegativeMsg nm ∧
        ∃ it ∈ order.items, it.item_name = nm) ∧
    ((order.items.map (fun it => it.item_name)).Nodup →
      (∀ it ∈ order.items, ∃ g, findGoods s.goods it.item_name = some g ∧
          it.quantity ≤ g.stock_quantity) →
      (deduct_inventory oid adm ext s).ok = true ∧
      (∀ it ∈ order.items, ∃ g, findGoods s.goods it.item_name = some g ∧
        findGoods (deduct_inventory oid adm ext s).state.goods it.item_name = some
          { g with stock_quantity := g.stock_quantity - it.quantity,
                   reserved_quantity := if g.reserved_quantity - it.quantity < 0 then 0
                     else g.reserved_quantity - it.quantity })) := by
  constructor
  · intro hshort
    obtain ⟨nm, herr, hwit⟩ := deductLoop_stock_short oid adm
      (orderRef order.order_code oid) order.items s.goods hq hex hshort
    simp only [deduct_inventory, horder, herr]
    refine ⟨by trivial, by trivial, by trivial, ?_, nm, by trivial, hwit⟩
    cases ext <;> simp
  · intro hnd hsuff
    obtain ⟨gs2, logs, hok, hpoint, _⟩ := deductLoop_ok_of_sufficient oid adm
      (orderRef order.order_code oid) order.items s.goods hnd hsuff
    simp only [deduct_inventory, horder, hok, updateOrder_goods]
    exact ⟨by trivial, hpoint⟩

/-- C4 witness: part two of the amended theorem on the base sample
state — deduct on the reserved-and-confirmed sample order succeeds,
stock drops by the order quantity and the reservation is clamped at
zero. -/
theorem c4_witness :
    (deduct_inventory 1 (some 0) true sampleState).ok = true ∧
    findGoods (deduct_inventory 1 (some 0) true sampleState).state.goods "Widget"
      = some { name := "Widget", stock_quantity := 7, reserved_quantity := 0 } := by
  have h := (c4_deduct_asymmetry_amended sampleState 1 (some 0) true sampleOrder
    (by decide) (by decide) (by decide)).2 (by decide) (by decide)
  refine ⟨h.1, ?_⟩
  obtain ⟨g, hg, hfin⟩ := h.2 { item_name := "Widget", quantity := 3 } (by decide)
  have hgv : g = sampleGoods := by
    have : findGoods sampleState.goods "Widget" = some sampleGoods := by decide
    rw [this] at hg
    exact (Option.some_inj.mp hg).symm
  subst hgv
  rw [hfin]
  rfl

/-- C5 amended: one sweep cycle selects the due orders (status
reserved, deadline before now) and processes all of them inside a
single shared session with exactly one commit at the very end of the
cycle — not one transaction per order.  Consequently a crash at any
point before that final commit durably expires none of the cycle's
orders (the durable state after any prefix of the trace that stops
short of the commit is the initial state, whose due orders are all
still reserved and simply due again next cycle), while the committed
end state has every due order expired. -/
theorem c5_sweep_single_commit_amended (now : Int) (s : DBState) :
    ((cleanup_expired_reservations now s).trace =
        (s.orders.filter (isExpiredOrder now)).map (fun o => SweepEvent.processed o.id)
          ++ [SweepEvent.commit (cleanup_expired_reservations now s).state]) ∧
    (∀ k, k ≤ (s.orders.filter (isExpiredOrder now)).length →
        durableState s ((cleanup_expired_reservations now s).trace.take k) = s) ∧
    ((s.orders.map (fun o => o.id)).Nodup →
        ∀ o ∈ s.orders.filter (isExpiredOrder now),
          (findOrder (cleanup_expired_reservations now s).state o.id).map
            (fun o2 => o2.order_status) = some "expired") := by
  have htr : (cleanup_expired_reservations now s).trace =
      (s.orders.filter (isExpiredOrder now)).map (fun o => SweepEvent.processed o.id)
        ++ [SweepEvent.commit (cleanup_expired_reservations now s).state] := by
    simp only [cleanup_expired_reservations]
    rw [sweepGo_trace]
  refine ⟨htr, ?_, ?_⟩
  · intro k hk
    rw [htr]
    rw [List.take_append_of_le_length (by simpa using hk)]
    apply durableState_processed
    intro e he
    have hmem : e ∈ (s.orders.filter (isExpiredOrder now)).map
        (fun o => SweepEvent.processed o.id) :=
      List.take_subset k _ he
    obtain ⟨o, _, hoe⟩ := List.mem_map.mp hmem
    rw [← hoe]
    rfl
  · intro hnd o ho
    have hsub : List.Sublist ((s.orders.filter (isExpiredOrder now)).map (fun o2 => o2.id))
        (s.orders.map (fun o2 => o2.id)) :=
      List.Sublist.map _ (List.filter_sublist s.orders)
    have hnd2 : ((s.orders.filter (isExpiredOrder now)).map (fun o2 => o2.id)).Nodup :=
      List.Nodup.sublist hsub hnd
    have hfound : ∀ o2 ∈ s.orders.filter (isExpiredOrder now), findOrder s o2.id = some o2 := by
      intro o2 ho2
      exact find?_key_self (fun x => x.id) s.orders hnd o2 (List.mem_of_mem_filter ho2)
    exact sweepGo_expires (s.orders.filter (isExpiredOrder now)) s hnd2 hfound o ho

/-- C5 witness: on the sample state with two due orders, the durable
state after the whole processing prefix (no commit yet) is still the
initial one, and the committed end state has the first due order
expired. -/
theorem c5_witness :
    durableState sampleDueState
      ((cleanup_expired_reservations 0 sampleDueState).trace.take 2) = sampleDueState ∧
    (findOrder (cleanup_expired_reservations 0 sampleDueState).state 1).map
      (fun o2 => o2.order_status) = some "expired" :=
  ⟨(c5_sweep_single_commit_amended 0 sampleDueState).2.1 2 (by decide),
   by
    have h := (c5_sweep_single_commit_amended 0 sampleDueState).2.2 (by decide)
      { sampleOrder with order_status := "reserved", reserved_until := some (-5),
                         bonus_applied := 2, order_code := "DUE001" } (by decide)
    exact h⟩

theorem findOrderByCode_some_code {s : DBState} {c : String} {o : Order}
    (h : findOrderByCode s c = some o) : o.order_code = c := by
  have hp := List.find?_some h
  simpa using hp

theorem findOrderByCode_updateOrder (s : DBState) (oid : Nat) (c : String) (f : Order → Order)
    (hf : ∀ o, (f o).order_code = o.order_code) :
    findOrderByCode (updateOrder s oid f) c =
      (findOrderByCode s c).map (fun o => if o.id == oid then f o else o) := by
  unfold findOrderByCode updateOrder
  apply find?_map_pres
  intro o
  by_cases ho : (o.id == oid) = true
  · simp [ho, hf]
  · simp [ho]

theorem findOrderByCode_goods_irrelevant (w : DBState) (gs : List Goods)
    (logs : List InventoryLog) (c : String) :
    findOrderByCode { w with goods := gs, inventory_logs := logs } c
      = findOrderByCode w c := rfl

theorem update_customer_spendings_orders (tid : Nat) (amt : Rat) (s : DBState) :
    (update_customer_spendings tid amt s).orders = s.orders := by
  unfold update_customer_spendings
  split <;> rfl

theorem applyReferralBonus_orders (b : Nat) (t : Rat) (s : DBState) :
    (applyReferralBonus b t s).orders = s.orders := by
  unfold applyReferralBonus
  repeat' split
  all_goals rfl

theorem findOrderByCode_congr_orders (s1 s2 : DBState) (h : s1.orders = s2.orders)
    (c : String) : findOrderByCode s1 c = findOrderByCode s2 c := by
  unfold findOrderByCode
  rw [h]

/-- C8 amended invariant: only the expiry transition demands a prior
reservation — the sweeper picks exclusively orders in status reserved
with a non-null deadline and leaves a never-reserved order (null
deadline) entirely untouched; the confirm and deliver flows guard only
against delivered/cancelled/canceled/expired, so a pending order that
was never reserved is confirmed by confirm_order_with_delivery_time and,
when the deduction succeeds, delivered by mark_order_delivered. -/
theorem c8_transition_guards_amended :
    (∀ (now : Int) (s : DBState) (oid : Nat) (order : Order),
        (s.orders.map (fun o => o.id)).Nodup →
        findOrder s oid = some order →
        order.reserved_until = none →
        findOrder (cleanup_expired_reservations now s).state oid = some order) ∧
    (∀ (s : DBState) (code : String) (dt now : Int) (order : Order),
        findOrderByCode s code = some order →
        order.order_status = "pending" →
        (findOrderByCode (confirm_order_with_delivery_time code dt now s) code).map
          (fun o => o.order_status) = some "confirmed") ∧
    (∀ (s : DBState) (code : String) (now : Int) (order : Order),
        findOrderByCode s code = some order →
        order.order_status = "pending" →
        (deduct_inventory order.id (some 0) true s).ok = true →
        (findOrderByCode (mark_order_delivered code now s) code).map
          (fun o => o.order_status) = some "delivered") := by
  refine ⟨?_, ?_, ?_⟩
  · intro now s oid order hnd horder huntil
    have hframe : ∀ o2 ∈ s.orders.filter (isExpiredOrder now), oid ≠ o2.id := by
      intro o2 ho2 hoeq
      have hfound : findOrder s o2.id = some o2 :=
        find?_key_self (fun x : Order => x.id) s.orders hnd o2 (List.mem_of_mem_filter ho2)
      rw [← hoeq, horder] at hfound
      cases hfound
      have hexp := List.of_mem_filter ho2
      unfold isExpiredOrder at hexp
      rw [huntil] at hexp
      simp at hexp
    show findOrder (sweepGo (s.orders.filter (isExpiredOrder now)) s).1 oid = some order
    rw [sweepGo_frame _ _ _ hframe]
    exact horder
  · intro s code dt now order horder hstatus
    have h1 : (order.order_status == "delivered") = false := by simp [hstatus]
    have h2 : (order.order_status == "cancelled" || order.order_status == "canceled"
        || order.order_status == "expired") = false := by simp [hstatus]
    simp only [confirm_order_with_delivery_time, horder, h1, h2, Bool.false_eq_true,
      if_false]
    rw [findOrderByCode_update]
    · rw [horder]
      have hcode : (order.order_code == code) = true := by
        simp [findOrderByCode_some_code horder]
      simp only [Option.map_some', hcode, if_true]
      split
      · split <;> rfl
      · rfl
    · intro o
      split
      · split <;> rfl
      · rfl
  · intro s code now order horder hstatus hdeduct
    have h1 : (order.order_status == "delivered") = false := by simp [hstatus]
    have h2 : (order.order_status == "cancelled" || order.order_status == "canceled"
        || order.order_status == "expired") = false := by simp [hstatus]
    cases hfind0 : findOrder s order.id with
    | none =>
        exfalso
        simp only [deduct_inventory, hfind0] at hdeduct
        exact Bool.noConfusion hdeduct
    | some order2 =>
        cases hloop : deductLoop order.id (some 0) (orderRef order2.order_code order.id)
            order2.items s.goods with
        | error m =>
            exfalso
            simp only [deduct_inventory, hfind0, hloop] at hdeduct
            exact Bool.noConfusion hdeduct
        | ok p =>
            obtain ⟨gs2, logs⟩ := p
            simp only [mark_order_delivered, horder, h1, h2, Bool.false_eq_true, if_false,
              hdeduct, if_true]
            rw [findOrderByCode_congr_orders _ _ (applyReferralBonus_orders _ _ _)]
            rw [findOrderByCode_congr_orders _ _ (update_customer_spendings_orders _ _ _)]
            rw [findOrderByCode_update]
            · simp only [deduct_inventory, hfind0, hloop]
              rw [findOrderByCode_updateOrder]
              · rw [findOrderByCode_goods_irrelevant, horder]
                simp [findOrderByCode_some_code horder]
              · intro o
                rfl
            · intro o
              rfl

/-- C8 witness: on the sample state the sweeper leaves the
never-reserved pending order untouched, while confirm and deliver both
move it into their target states. -/
theorem c8_witness :
    findOrder (cleanup_expired_reservations 0 sampleState).state 1 = some sampleOrder ∧
    (findOrderByCode (confirm_order_with_delivery_time "ABC123" 1000 0 sampleState)
        "ABC123").map (fun o => o.order_status) = some "confirmed" ∧
    (findOrderByCode (mark_order_delivered "ABC123" 50 sampleState)
        "ABC123").map (fun o => o.order_status) = some "delivered" :=
  ⟨c8_transition_guards_amended.1 0 sampleState 1 sampleOrder (by decide) (by decide)
      (by decide),
   c8_transition_guards_amended.2.1 sampleState "ABC123" 1000 0 sampleOrder (by decide)
      (by decide),
   c8_transition_guards_amended.2.2 sampleState "ABC123" 50 sampleOrder (by decide)
      (by decide) (by decide)⟩

end Shop
